import Mathlib

/-!
Verification of the mangneton retrieval-fusion and answer-construction pipeline
(the web-worker query handler: cosine similarity, BM25, reciprocal rank fusion,
MMR diversity reranking, query expansion and intent detection, the confidence
gate, extractive fallback summarization, and citation enforcement).

Modelling conventions.
JS strings are modelled as `List Char` and JS numbers as `ℚ`.  `Math.sqrt` and
`Math.log` are irrational-valued, so every definition that uses them is
parametric in oracles `sq lg : ℚ → ℚ`; concrete evaluations instantiate `sq`
with `ratSqrt` (exact on perfect squares, as `Math.sqrt` is) and `lg` with a
concrete function.  Lean division by zero yields 0; the places the source can
actually divide 0 by 0 (`cosineSimilarity` on a zero-norm vector, and
`bm25Score` when every BM25 candidate text is tokenless so `avgDocLen` is 0 -
JS produces NaN in both) are modelled honestly by `cosineSimilarityJS` and
`bm25ScoreJS` returning a `JSNum` that includes NaN; the rational shadows used
inside the pipeline map those degenerate cases to 0, and `bm25ScoreJS_val`
proves the shadow exact whenever the average document length is positive.
The external collaborators are
oracles: `embed : List Char → Option (List ℚ)` and
`gen : List Char → Option (List Char)`, where `none` models a thrown error.
-/

abbrev Token := List Char

def str (s : String) : List Char := s.data

def apos : Char := Char.ofNat 39

/-- The character class matched by the JS regex `\s` (common cases). -/
def isWS (c : Char) : Bool :=
  c = ' ' || c = '\t' || c = '\n' || c = '\r' || c = Char.ofNat 11 || c = Char.ofNat 12

def toLowerList (s : List Char) : List Char := s.map Char.toLower

/-- JS `String.prototype.trim`. -/
def trimList (s : List Char) : List Char :=
  ((s.dropWhile isWS).reverse.dropWhile isWS).reverse

/-- Auxiliary scanner for `splitWS`: `none` means the scanner is inside a
whitespace run that has just produced a split, `some acc` means it is
collecting a field whose characters so far are `acc`, reversed. -/
def splitWSAux : Option (List Char) → List Char → List (List Char)
| none, [] => [[]]
| some acc, [] => [acc.reverse]
| none, c :: rest => if isWS c then splitWSAux none rest else splitWSAux (some [c]) rest
| some acc, c :: rest =>
  if isWS c then acc.reverse :: splitWSAux none rest
  else splitWSAux (some (c :: acc)) rest

/-- JS `s.split(/\s+/)`: split on maximal whitespace runs, keeping the empty
leading/trailing fields the JS regex split produces. -/
def splitWS (s : List Char) : List (List Char) := splitWSAux (some []) s

/-- JS `s.split(sep)` for a single-character separator (no run collapsing). -/
def splitOnGo (sep : Char) : List Char → List Char → List (List Char)
| acc, [] => [acc.reverse]
| acc, c :: rest =>
  if c = sep then acc.reverse :: splitOnGo sep [] rest
  else splitOnGo sep (c :: acc) rest

def splitOn1 (sep : Char) (s : List Char) : List (List Char) := splitOnGo sep [] s

/-- JS `hay.includes(pat)` for strings. -/
def includesSub (hay pat : List Char) : Bool :=
  pat.isPrefixOf hay ||
    match hay with
    | [] => false
    | _ :: t => includesSub t pat

/-- JS `s.replace(pat, '')` with a plain-string pattern: remove the first
occurrence of `pat`, if any. -/
def replaceFirst (pat : List Char) : List Char → List Char
| [] => []
| c :: t => if pat.isPrefixOf (c :: t) then (c :: t).drop pat.length else c :: replaceFirst pat t

/-- Auxiliary scanner for `collapseWS`; the flag records whether the scanner
is inside a whitespace run that has already emitted its single space. -/
def collapseWSAux (inRun : Bool) : List Char → List Char
| [] => []
| c :: rest =>
  if isWS c then
    (if inRun then collapseWSAux true rest else ' ' :: collapseWSAux true rest)
  else c :: collapseWSAux false rest

/-- JS `s.replace(/\s+/g, ' ')`. -/
def collapseWS (s : List Char) : List Char := collapseWSAux false s

/-- Iteration order of a JS `Set` built from a list: first occurrences. -/
def dedupFirstAux (seen : List Token) : List Token → List Token
| [] => []
| x :: xs => if x ∈ seen then dedupFirstAux seen xs else x :: dedupFirstAux (x :: seen) xs

def dedupFirst (l : List Token) : List Token := dedupFirstAux [] l

def digitChar (d : Nat) : Char := Char.ofNat (48 + d)

def natDigitsGo (fuel : Nat) (n : Nat) (acc : List Char) : List Char :=
  match fuel with
  | 0 => acc
  | fuel + 1 =>
    if n < 10 then digitChar n :: acc
    else natDigitsGo fuel (n / 10) (digitChar (n % 10) :: acc)

/-- Decimal digits of a natural number, as produced by JS template
interpolation of a number (`n + 1` units of fuel always suffice). -/
def natDigits (n : Nat) : List Char := natDigitsGo (n + 1) n []

/-- The citation token `[S<digits of n>]`. -/
def citTok (n : Nat) : List Char := '[' :: 'S' :: (natDigits n ++ [']'])

/-- After having seen `[S` and one digit: accept `\d*\]`. -/
def digitsClose : List Char → Bool
| [] => false
| c :: rest => if c = ']' then true else c.isDigit && digitsClose rest

/-- Does the list start with a full match of `\[S\d+\]`? -/
def citHere : List Char → Bool
| '[' :: 'S' :: c :: rest => c.isDigit && digitsClose rest
| _ => false

/-- JS `/\[S\d+\]/.test(s)`. -/
def hasCitTok : List Char → Bool
| [] => false
| c :: rest => citHere (c :: rest) || hasCitTok rest

/-- The answer `s` contains the citation token `[S<n>]` for some index `n`
within `1..k` (`k` = number of labelled sources). -/
def InRangeCit (k : Nat) (s : List Char) : Prop :=
  ∃ n pre post, 1 ≤ n ∧ n ≤ k ∧ s = pre ++ citTok n ++ post

def isLowerAlnum (c : Char) : Bool := ('a' ≤ c && c ≤ 'z') || ('0' ≤ c && c ≤ '9')

/-- BM25 tokenizer: lowercase, replace non-alphanumerics by a space, split on
whitespace, keep tokens of length greater than 2. -/
def tokenize (text : List Char) : List Token :=
  (splitWS ((toLowerList text).map (fun c => if isLowerAlnum c || isWS c then c else ' '))).filter
    (fun t => decide (2 < t.length))

/-- JS `array.join(sep)`. -/
def joinSep (sep : List Char) : List (List Char) → List Char
| [] => []
| [x] => x
| x :: y :: xs => x ++ sep ++ joinSep sep (y :: xs)

/-! ## Vector arithmetic and cosine similarity -/

def dotProduct (a b : List ℚ) : ℚ := (List.zipWith (· * ·) a b).sum

def normSq (a : List ℚ) : ℚ := dotProduct a a

/-- JS numbers as produced by a division: NaN, infinities, or a value. -/
inductive JSNum where
  | nan : JSNum
  | posInf : JSNum
  | negInf : JSNum
  | val : ℚ → JSNum
deriving DecidableEq, Repr

/-- The source `cosineSimilarity`, with the JS division semantics made
explicit: the loop runs over the indices of `a` (hence `b.take a.length`),
and `dot / 0` is NaN when `dot = 0` and a signed infinity otherwise.  There
is no zero-norm guard in the source. -/
def cosineSimilarityJS (sq : ℚ → ℚ) (a b : List ℚ) : JSNum :=
  let dot := dotProduct a b
  let denom := sq (normSq a) * sq (normSq (b.take a.length))
  if denom = 0 then (if dot = 0 then .nan else if 0 < dot then .posInf else .negInf)
  else .val (dot / denom)

/-- Rational shadow of `cosineSimilarity` used inside the pipeline model; the
degenerate NaN case collapses to 0 by the Lean division-by-zero convention. -/
def cosineSimilarityQ (sq : ℚ → ℚ) (a b : List ℚ) : ℚ :=
  dotProduct a b / (sq (normSq a) * sq (normSq (b.take a.length)))

/-- Exact integer square root on perfect squares (0 otherwise), by bounded
search; structural, so concrete instances evaluate. -/
def isqrtGo (n : Nat) : Nat → Nat
| 0 => 0
| k + 1 => if (k + 1) * (k + 1) = n then k + 1 else isqrtGo n k

def isqrt (n : Nat) : Nat := isqrtGo n n

/-- A square-root oracle agreeing with `Math.sqrt` on every perfect square of
a reduced rational (the only values concrete runs below need). -/
def ratSqrt (q : ℚ) : ℚ := (isqrt q.num.toNat : ℚ) / (isqrt q.den : ℚ)

/-! ## BM25 -/

def BM25_K1 : ℚ := 3/2
def BM25_B : ℚ := 3/4

/-- JS `Map` over token keys, as an association list in insertion order. -/
def mapGet : List (Token × ℚ) → Token → Option ℚ
| [], _ => none
| (k, v) :: rest, k' => if k = k' then some v else mapGet rest k'

def mapSet : List (Token × ℚ) → Token → ℚ → List (Token × ℚ)
| [], k, v => [(k, v)]
| (k0, v0) :: rest, k, v => if k0 = k then (k, v) :: rest else (k0, v0) :: mapSet rest k v

def computeIDF (lg : ℚ → ℚ) (term : Token) (docs : List (List Token)) : ℚ :=
  let docsWithTerm := (docs.filter (fun d => decide (term ∈ d))).length
  if docsWithTerm = 0 then 0
  else lg (((docs.length : ℚ) - (docsWithTerm : ℚ) + 1/2) / ((docsWithTerm : ℚ) + 1/2) + 1)

def bm25Score (queryTokens : List Token) (docTokens : List Token) (avgDocLen : ℚ)
    (idfMap : List (Token × ℚ)) : ℚ :=
  let docLen : ℚ := (docTokens.length : ℚ)
  queryTokens.foldl (fun score term =>
    let tf : ℚ := (docTokens.count term : ℚ)
    let idf : ℚ := (mapGet idfMap term).getD 0
    let numerator := tf * (BM25_K1 + 1)
    let denominator := tf + BM25_K1 * (1 - BM25_B + BM25_B * (docLen / avgDocLen))
    score + idf * (numerator / denominator)) 0

/-- IEEE addition on `JSNum` (exact on finite values). -/
def jsAdd : JSNum → JSNum → JSNum
| JSNum.nan, JSNum.nan => JSNum.nan
| JSNum.nan, JSNum.posInf => JSNum.nan
| JSNum.nan, JSNum.negInf => JSNum.nan
| JSNum.nan, JSNum.val _ => JSNum.nan
| JSNum.posInf, JSNum.nan => JSNum.nan
| JSNum.posInf, JSNum.posInf => JSNum.posInf
| JSNum.posInf, JSNum.negInf => JSNum.nan
| JSNum.posInf, JSNum.val _ => JSNum.posInf
| JSNum.negInf, JSNum.nan => JSNum.nan
| JSNum.negInf, JSNum.posInf => JSNum.nan
| JSNum.negInf, JSNum.negInf => JSNum.negInf
| JSNum.negInf, JSNum.val _ => JSNum.negInf
| JSNum.val _, JSNum.nan => JSNum.nan
| JSNum.val _, JSNum.posInf => JSNum.posInf
| JSNum.val _, JSNum.negInf => JSNum.negInf
| JSNum.val a, JSNum.val b => JSNum.val (a + b)

/-- IEEE multiplication on `JSNum` (exact on finite values); `0 * Infinity`
is NaN. -/
def jsMul : JSNum → JSNum → JSNum
| JSNum.nan, JSNum.nan => JSNum.nan
| JSNum.nan, JSNum.posInf => JSNum.nan
| JSNum.nan, JSNum.negInf => JSNum.nan
| JSNum.nan, JSNum.val _ => JSNum.nan
| JSNum.posInf, JSNum.nan => JSNum.nan
| JSNum.posInf, JSNum.posInf => JSNum.posInf
| JSNum.posInf, JSNum.negInf => JSNum.negInf
| JSNum.posInf, JSNum.val b =>
  if b = 0 then JSNum.nan else if 0 < b then JSNum.posInf else JSNum.negInf
| JSNum.negInf, JSNum.nan => JSNum.nan
| JSNum.negInf, JSNum.posInf => JSNum.negInf
| JSNum.negInf, JSNum.negInf => JSNum.posInf
| JSNum.negInf, JSNum.val b =>
  if b = 0 then JSNum.nan else if 0 < b then JSNum.negInf else JSNum.posInf
| JSNum.val _, JSNum.nan => JSNum.nan
| JSNum.val a, JSNum.posInf =>
  if a = 0 then JSNum.nan else if 0 < a then JSNum.posInf else JSNum.negInf
| JSNum.val a, JSNum.negInf =>
  if a = 0 then JSNum.nan else if 0 < a then JSNum.negInf else JSNum.posInf
| JSNum.val a, JSNum.val b => JSNum.val (a * b)

/-- IEEE division on `JSNum` (exact on finite values, rational zero read as
`+0`): `0/0` and `Infinity/Infinity` are NaN, a nonzero finite value over 0
is a signed infinity, a finite value over an infinity is 0. -/
def jsDiv : JSNum → JSNum → JSNum
| JSNum.nan, JSNum.nan => JSNum.nan
| JSNum.nan, JSNum.posInf => JSNum.nan
| JSNum.nan, JSNum.negInf => JSNum.nan
| JSNum.nan, JSNum.val _ => JSNum.nan
| JSNum.posInf, JSNum.nan => JSNum.nan
| JSNum.posInf, JSNum.posInf => JSNum.nan
| JSNum.posInf, JSNum.negInf => JSNum.nan
| JSNum.posInf, JSNum.val b => if 0 ≤ b then JSNum.posInf else JSNum.negInf
| JSNum.negInf, JSNum.nan => JSNum.nan
| JSNum.negInf, JSNum.posInf => JSNum.nan
| JSNum.negInf, JSNum.negInf => JSNum.nan
| JSNum.negInf, JSNum.val b => if 0 ≤ b then JSNum.negInf else JSNum.posInf
| JSNum.val _, JSNum.nan => JSNum.nan
| JSNum.val _, JSNum.posInf => JSNum.val 0
| JSNum.val _, JSNum.negInf => JSNum.val 0
| JSNum.val a, JSNum.val b =>
  if b = 0 then (if a = 0 then JSNum.nan else if 0 < a then JSNum.posInf else JSNum.negInf)
  else JSNum.val (a / b)

/-- The source `bm25Score` with the JS division semantics made explicit:
`docLen / avgDocLen` is `0/0 = NaN` when every candidate text is tokenless
(so `avgDocLen = 0` and `docLen = 0`), and the NaN propagates through the
per-term arithmetic into the accumulated score. -/
def bm25ScoreJS (queryTokens : List Token) (docTokens : List Token) (avgDocLen : ℚ)
    (idfMap : List (Token × ℚ)) : JSNum :=
  let docLen : ℚ := (docTokens.length : ℚ)
  queryTokens.foldl (fun score term =>
    let tf : ℚ := (docTokens.count term : ℚ)
    let idf : ℚ := (mapGet idfMap term).getD 0
    let numerator := tf * (BM25_K1 + 1)
    let denominator := jsAdd (JSNum.val tf) (jsMul (JSNum.val BM25_K1)
      (jsAdd (JSNum.val (1 - BM25_B)) (jsMul (JSNum.val BM25_B)
        (jsDiv (JSNum.val docLen) (JSNum.val avgDocLen)))))
    jsAdd score (jsMul (JSNum.val idf) (jsDiv (JSNum.val numerator) denominator)))
    (JSNum.val 0)

/-! ## Reciprocal rank fusion -/

structure RankEntry where
  id : List Char
  rank : Nat
deriving DecidableEq, Repr

def RRF_K : ℚ := 60

def rrfInsert (m : List (Token × ℚ)) (e : RankEntry) : List (Token × ℚ) :=
  mapSet m e.id ((mapGet m e.id).getD 0 + 1 / (RRF_K + (e.rank : ℚ)))

def reciprocalRankFusion (rankings : List (List RankEntry)) : List (Token × ℚ) :=
  rankings.foldl (fun m r => r.foldl rrfInsert m) []

/-! ## Chunks and scored candidates -/

/-- A stored chunk together with the per-query score fields the handler adds
by object spread; fields not yet assigned default to 0 or empty. -/
structure RChunk where
  id : List Char := []
  docId : List Char := []
  text : List Char := []
  page : Option Nat := none
  chunkIndex : Option Nat := none
  embedding : List ℚ := []
  score : ℚ := 0
  bm25Score : ℚ := 0
  combinedScore : ℚ := 0
  sourceId : List Char := []
deriving DecidableEq, Repr

/-- The chunk carries the `sourceId` label `S<j+1>` for some position `j < k`. -/
def GoodId (k : Nat) (c : RChunk) : Prop :=
  ∃ j, j < k ∧ c.sourceId = 'S' :: natDigits (j + 1)

/-- Stable insertion into a descending-sorted list (new element goes before
equal keys, matching the stable JS `Array.prototype.sort` with comparator
`(a, b) => key b - key a` applied to the earlier-positioned element). -/
def insertDesc (key : α → ℚ) (x : α) : List α → List α
| [] => [x]
| y :: ys => if key y ≤ key x then x :: y :: ys else y :: insertDesc key x ys

/-- Stable sort, descending by `key`; extensionally equal to the JS stable
sort with comparator `(a, b) => key b - key a`. -/
def sortDesc (key : α → ℚ) : List α → List α
| [] => []
| x :: xs => insertDesc key x (sortDesc key xs)

/-! ## Query expansion and identity detection -/

def QUERY_EXPANSIONS : List (Token × Token) := [
  (str "name", str "name full name person author candidate resume cv profile"),
  (str "who", str "name person author candidate identity profile about"),
  (str "contact", str "email phone address contact information linkedin github"),
  (str "email", str "email mail contact address gmail"),
  (str "phone", str "phone telephone mobile number contact"),
  (str "experience", str "experience work job position role employment history professional"),
  (str "education", str "education degree university college school academic qualification"),
  (str "skills", str "skills technologies programming languages frameworks tools expertise"),
  (str "projects", str "projects portfolio work built developed created implemented"),
  (str "summary", str "summary objective profile about introduction overview"),
  (str "location", str "location address city country based remote"),
  (str "company", str "company employer organization worked employment"),
  (str "title", str "title position role job designation"),
  (str "languages", str "languages programming technologies stack frameworks")]

def expandQuery (query : List Char) : List Char :=
  let normalized := toLowerList (trimList query)
  match QUERY_EXPANSIONS.find? (fun e => decide (e.1 = normalized)) with
  | some e => query ++ (' ' :: e.2)
  | none =>
    match QUERY_EXPANSIONS.find? (fun e =>
        includesSub normalized e.1 && decide ((splitWS normalized).length ≤ 3)) with
    | some e => query ++ (' ' :: e.2)
    | none => query

def identityExact : List Token :=
  [str "name", str "who", str "whose", str "author", str "person", str "candidate"]

/-- Character class of the regex `.` (no dotall flag): anything but a line
terminator. -/
def isRegexDotChar (c : Char) : Bool :=
  !(c = '\n' || c = '\r' || c = Char.ofNat 8232 || c = Char.ofNat 8233)

/-- JS `/^(name|who|what.*name|whose|author|person|candidate)$/i.test(query.trim())`. -/
def isIdentityQuery (query : List Char) : Bool :=
  let t := toLowerList (trimList query)
  decide (t ∈ identityExact) ||
    ((str "what").isPrefixOf t && (str "name").isSuffixOf t && decide (8 ≤ t.length) &&
      t.all isRegexDotChar)

/-! ## Semantic scoring with identity positional boosts -/

def FIRST_CHUNK_BOOST : ℚ := 3/20

def scoreChunk (sq : ℚ → ℚ) (isIdentity : Bool) (queryVector : List ℚ) (c : RChunk) : ℚ :=
  let base := cosineSimilarityQ sq queryVector c.embedding
  let s1 := if isIdentity && decide (c.chunkIndex = some 0) then base + FIRST_CHUNK_BOOST else base
  if isIdentity && decide (c.page = some 1) && decide (c.chunkIndex.getD 0 < 2) then
    s1 + FIRST_CHUNK_BOOST * (1/2)
  else s1

def scoredStage (sq : ℚ → ℚ) (isIdentity : Bool) (queryVector : List ℚ)
    (corpus : List RChunk) : List RChunk :=
  sortDesc (fun c => c.score)
    (corpus.map (fun c => { c with score := scoreChunk sq isIdentity queryVector c }))

/-! ## MMR diversity reranking -/

def MMR_LAMBDA : ℚ := 7/10

def mmrScore (sq : ℚ → ℚ) (selected : List RChunk) (c : RChunk) : ℚ :=
  let maxSim := selected.foldl (fun acc sel =>
    let sim := cosineSimilarityQ sq c.embedding sel.embedding
    if acc < sim then sim else acc) 0
  MMR_LAMBDA * c.combinedScore - (1 - MMR_LAMBDA) * maxSim

/-- Index of the first maximal MMR score; the JS loop seeds with score
`-Infinity`, which the first candidate always beats. -/
def bestIdxGo (sq : ℚ → ℚ) (selected : List RChunk) :
    List RChunk → Nat → Nat → ℚ → Nat
| [], _, bi, _ => bi
| c :: rest, i, bi, bs =>
  let s := mmrScore sq selected c
  if bs < s then bestIdxGo sq selected rest (i + 1) i s
  else bestIdxGo sq selected rest (i + 1) bi bs

def bestIdx (sq : ℚ → ℚ) (selected : List RChunk) : List RChunk → Nat
| [] => 0
| c :: rest => bestIdxGo sq selected rest 1 0 (mmrScore sq selected c)

def mmrLoop (sq : ℚ → ℚ) (k : Nat) (selected remaining : List RChunk) : List RChunk :=
  if selected.length < k ∧ remaining ≠ [] then
    if hi : bestIdx sq selected remaining < remaining.length then
      mmrLoop sq k (selected ++ [remaining.get ⟨bestIdx sq selected remaining, hi⟩])
        (remaining.eraseIdx (bestIdx sq selected remaining))
    else selected
  else selected
termination_by remaining.length
decreasing_by simp [List.length_eraseIdx, hi]; omega

def mmrRerank (sq : ℚ → ℚ) (candidates : List RChunk) (queryVector : List ℚ)
    (k : Nat) : List RChunk :=
  if candidates.length ≤ k then candidates
  else
    match candidates with
    | [] => []
    | c :: rest => mmrLoop sq k [c] rest

/-! ## Ranking construction, fusion stage and source labelling -/

def rankFrom (n : Nat) : List RChunk → List RankEntry
| [] => []
| c :: cs => ⟨c.id, n⟩ :: rankFrom (n + 1) cs

def topKStage (sq : ℚ → ℚ) (isId : Bool) (queryVector : List ℚ)
    (corpus : List RChunk) : List RChunk :=
  (scoredStage sq isId queryVector corpus).take 8

/-- `avgDocLen` of the source: mean token count, with the `|| 1` guard on an
empty candidate list. -/
def avgDocLenOf (docs : List (List Token)) : ℚ :=
  (docs.map (fun d => (d.length : ℚ))).sum /
    (if docs.length = 0 then 1 else (docs.length : ℚ))

/-- The `idfMap` of the source: IDF per query term over the candidate
subset's token lists. -/
def idfMapOf (lg : ℚ → ℚ) (queryTokensArr : List Token)
    (docs : List (List Token)) : List (Token × ℚ) :=
  queryTokensArr.foldl (fun m t => mapSet m t (computeIDF lg t docs)) []

def withBM25Stage (lg : ℚ → ℚ) (topK : List RChunk)
    (queryTokensArr : List Token) : List RChunk :=
  let allDocTokens := topK.map (fun c => tokenize c.text)
  let avgDocLen := avgDocLenOf allDocTokens
  let idfMap := idfMapOf lg queryTokensArr allDocTokens
  topK.map (fun c =>
    { c with bm25Score := bm25Score queryTokensArr (tokenize c.text) avgDocLen idfMap })

/-- Rank by semantic score and by BM25 score, fuse with RRF, attach the
fused score as `combinedScore` and sort by it. -/
def rrfStage (withBM25 : List RChunk) : List RChunk :=
  let semanticRanking := rankFrom 1 (sortDesc (fun c => c.score) withBM25)
  let bm25Ranking := rankFrom 1 (sortDesc (fun c => c.bm25Score) withBM25)
  let rrfScores := reciprocalRankFusion [semanticRanking, bm25Ranking]
  sortDesc (fun c => c.combinedScore)
    (withBM25.map (fun c => { c with combinedScore := (mapGet rrfScores c.id).getD 0 }))

/-- Scored candidates after BM25, RRF combination and the combined-score
sort (the `combined` array of the source). -/
def combinedStage (sq lg : ℚ → ℚ) (corpus : List RChunk) (text : List Char)
    (queryVector : List ℚ) : List RChunk :=
  rrfStage (withBM25Stage lg (topKStage sq (isIdentityQuery text) queryVector corpus)
    (dedupFirst (tokenize text)))

def labelFrom (n : Nat) : List RChunk → List RChunk
| [] => []
| c :: cs => { c with sourceId := 'S' :: natDigits (n + 1) } :: labelFrom (n + 1) cs

/-- Diversified, labelled sources for one query. -/
def retrieveSources (sq lg : ℚ → ℚ) (corpus : List RChunk) (text : List Char)
    (queryVector : List ℚ) : List RChunk :=
  labelFrom 0 (mmrRerank sq (combinedStage sq lg corpus text queryVector) queryVector 8)

/-! ## Identity extraction heuristic -/

def NAME_SKIP_PATTERNS : List Token :=
  [str "resume", str "cv", str "curriculum", str "summary", str "objective",
   str "experience", str "education", str "skills", str "contact", str "address",
   str "email", str "phone", str "profile"]

def isSkipLine (line : List Char) : Bool :=
  NAME_SKIP_PATTERNS.any (fun p => p.isPrefixOf (toLowerList line))

def isNameChar (c : Char) : Bool :=
  ('A' ≤ c && c ≤ 'Z') || ('a' ≤ c && c ≤ 'z') || isWS c || c = '.' || c = '-' || c = apos

def nameLineOk (line : List Char) : Bool :=
  let wc := (splitWS line).length
  decide (1 ≤ wc) && decide (wc ≤ 4) && !isSkipLine line &&
    (!line.isEmpty && line.all isNameChar) &&
    decide (3 ≤ line.length) && decide (line.length ≤ 50)

def extractIdentityInfo (sources : List RChunk) : Option (List Char) :=
  let firstChunks := sources.filter (fun s =>
    decide (s.chunkIndex = some 0) ||
      (decide (s.page = some 1) && decide (s.chunkIndex.getD 0 < 2)))
  let firstChunks2 :=
    if firstChunks.isEmpty then
      match sources with
      | [] => []
      | s :: _ => [s]
    else firstChunks
  firstChunks2.findSome? (fun chunk =>
    let lines := ((splitOn1 '\n' chunk.text).map trimList).filter (fun l => !l.isEmpty)
    (lines.take 5).findSome? (fun line =>
      if nameLineOk line then some (line ++ (' ' :: '[' :: (chunk.sourceId ++ [']'])))
      else none))

/-! ## TF-IDF extractive summarization -/

structure SentEntry where
  sentence : List Char
  sourceId : List Char
  score : ℚ := 0
deriving DecidableEq, Repr

/-- Auxiliary scanner for `sentenceSplit`: `none` means inside the whitespace
run of a separator just matched, `some acc` means collecting a segment. -/
def ssAux : Option (List Char) → List Char → List (List Char)
| none, [] => [[]]
| some acc, [] => [acc.reverse]
| none, c :: rest => if isWS c then ssAux none rest else ssAux (some [c]) rest
| some acc, c :: rest =>
  if isWS c && (match acc with
    | p :: _ => p = '.' || p = '!' || p = '?'
    | [] => false) then
    acc.reverse :: ssAux none rest
  else ssAux (some (c :: acc)) rest

/-- JS `s.split(/(?<=[.!?])\s+/)` followed by `.map(trim).filter(Boolean)`:
split at whitespace runs preceded by sentence punctuation. -/
def sentenceSplit (s : List Char) : List (List Char) :=
  ((ssAux (some []) s).map trimList).filter (fun x => !x.isEmpty)

def tfidfSentenceScore (sq lg : ℚ → ℚ) (sentence : List Char) (queryTokens : List Token)
    (allSentences : List (List Char)) : ℚ :=
  let sentTokens := tokenize sentence
  if sentTokens.isEmpty then 0
  else
    let score := queryTokens.foldl (fun sc qt =>
      if !decide (qt ∈ sentTokens) then sc
      else
        let tf : ℚ := (sentTokens.count qt : ℚ) / (sentTokens.length : ℚ)
        let docsWithTerm := (allSentences.filter (fun s => decide (qt ∈ tokenize s))).length
        let idf := lg (((allSentences.length : ℚ) + 1) / ((docsWithTerm : ℚ) + 1)) + 1
        sc + tf * idf) 0
    score / sq (queryTokens.length : ℚ)

def overlapDup (p s : SentEntry) : Bool :=
  let pt := tokenize p.sentence
  let st := tokenize s.sentence
  let overlap := (pt.filter (fun t => decide (t ∈ st))).length
  decide ((3 : ℚ)/5 < (overlap : ℚ) / ((min pt.length st.length : Nat) : ℚ))

def pickDiverse : List SentEntry → List SentEntry → List SentEntry
| picked, [] => picked
| picked, s :: rest =>
  if 3 ≤ picked.length then picked
  else if picked.any (fun p => overlapDup p s) then pickDiverse picked rest
  else pickDiverse (picked ++ [s]) rest

def buildExtractiveAnswer (sq lg : ℚ → ℚ) (queryTokens : List Token)
    (sources : List RChunk) : Option (List Char) :=
  let sentenceMap := sources.flatMap (fun s =>
    ((sentenceSplit s.text).filter (fun x => decide (20 < x.length))).map
      (fun sent => ({ sentence := sent, sourceId := s.sourceId } : SentEntry)))
  let allSentences := sentenceMap.map (fun e => e.sentence)
  let scoredSentences := (sentenceMap.map (fun e =>
    { e with score := tfidfSentenceScore sq lg e.sentence queryTokens allSentences })).filter
      (fun e => decide (0 < e.score))
  let sorted := sortDesc (fun e : SentEntry => e.score) scoredSentences
  let picked := pickDiverse [] sorted
  if picked.isEmpty then none
  else some (joinSep [' '] (picked.map (fun p => p.sentence ++ (' ' :: '[' :: (p.sourceId ++ [']'])))))

/-! ## Confidence gate, context, prompt, and citation enforcement -/

def noDocsMsg : List Char := str "No documents found."

def abstainPhrase : List Char := str "i don" ++ apos :: str "t have that information"

def abstainMsg : List Char :=
  str "I don" ++ apos :: str "t have that information in the provided documents."

def genFailMsg : List Char :=
  str "I found relevant documents (see sources below), but couldn" ++
    apos :: str "t generate a summary."

def noAnswerMsg : List Char := str "Could not generate answer."

/-- JS `/i don't have that information/i.test(s)`. -/
def containsAbstention (s : List Char) : Bool := includesSub (toLowerList s) abstainPhrase

def wordCountOf (text : List Char) : Nat :=
  ((splitWS (trimList text)).filter (fun w => !w.isEmpty)).length

def thresholdOf (text : List Char) : ℚ :=
  if isIdentityQuery text then 1/100
  else if wordCountOf text ≤ 3 then 8/100
  else 18/100

def topScoreOf (ls : List RChunk) : ℚ := ((ls.head?).map (fun c => c.combinedScore)).getD 0

def pageInfoOf (c : RChunk) : List Char :=
  match c.page with
  | some p => if p ≠ 0 then str "[Page " ++ natDigits p ++ str "]" else []
  | none => []

def orderInfoOf (c : RChunk) : List Char :=
  if decide (c.page = some 1) && decide (c.chunkIndex = some 0) then str "[Start of Document]"
  else []

def contextEntry (c : RChunk) : List Char :=
  '[' :: (c.sourceId ++ str "] " ++ orderInfoOf c ++ (' ' :: pageInfoOf c) ++ ('\n' :: c.text))

def contextOf (ls : List RChunk) : List Char :=
  let ctx := joinSep (str "\n\n---\n\n") (ls.map contextEntry)
  if 2600 < ctx.length then ctx.take 2600 else ctx

def promptOf (ls : List RChunk) (text : List Char) : List Char :=
  str "<|im_start|>system\n    You are a precise assistant. Use ONLY the context. If the answer is not explicitly in the context, reply: \"I don" ++
    apos :: str "t have that information in the provided documents.\" Do not guess or add facts. Keep answers concise. When you state a fact, include a citation in the form [S1], [S2], etc. Every factual sentence must end with a citation.\n    <|im_end|>\n    <|im_start|>user\n    Context:\n    " ++
    contextOf ls ++ str "\n\n    Question: " ++ text ++
    str "<|im_end|>\n    <|im_start|>assistant\n    "

def imEndTok : List Char := str "<|im_end|>"

/-- JS `answer.replace(/^Answer:\s*/i, '')`. -/
def stripAnswerPrefix (a : List Char) : List Char :=
  if (str "answer:").isPrefixOf (toLowerList a) then (a.drop 7).dropWhile isWS else a

/-- Post-generation cleanup: strip a prompt echo, remove the first
`<|im_end|>`, trim, strip a leading `Answer:`, and rewrite a long answer that
contains the abstention phrase to the pure abstention message. -/
def cleanupAnswer (prompt raw : List Char) : List Char :=
  let a0 := if prompt.isPrefixOf raw then raw.drop prompt.length else raw
  let a1 := trimList (replaceFirst imEndTok a0)
  let a2 := stripAnswerPrefix a1
  if containsAbstention a2 && decide (50 < a2.length) then abstainMsg else a2

/-- Citation enforcement on the cleaned answer: if it has no `[S#]` token and
is not an abstention, try a verbatim source match for short answers, else
fall back to the extractive answer or the abstention message. -/
def enforceCitations (sq lg : ℚ → ℚ) (queryTokens : List Token) (ls : List RChunk)
    (a3 : List Char) : List Char :=
  if !hasCitTok a3 && !containsAbstention a3 then
    let normalized := trimList (collapseWS a3)
    if !normalized.isEmpty && decide (normalized.length ≤ 80) then
      match ls.findIdx? (fun s => includesSub s.text normalized) with
      | some i => normalized ++ (' ' :: citTok (i + 1))
      | none => (buildExtractiveAnswer sq lg queryTokens ls).getD abstainMsg
    else (buildExtractiveAnswer sq lg queryTokens ls).getD abstainMsg
  else a3

/-- Post-generation cleanup and citation enforcement applied to the raw
generator output (with the final empty-answer replacement). -/
def finalizeAnswer (sq lg : ℚ → ℚ) (queryTokens : List Token) (ls : List RChunk)
    (prompt raw : List Char) : List Char :=
  let a4 := enforceCitations sq lg queryTokens ls (cleanupAnswer prompt raw)
  if a4.isEmpty then noAnswerMsg else a4

/-! ## The query handler -/

inductive FinalEvent where
  | queryResult (answer : List Char) (sources : List RChunk)
  | errorEvent
deriving DecidableEq, Repr

/-- The terminal `query_result`/`error` event of one query, paired with a flag
recording whether the generation collaborator was invoked.  `embed` and `gen`
model the external collaborators; `none` models a thrown error (an embedding
failure reaches the outer catch and becomes an error event; a generation
failure is caught locally and replaced by the fixed fallback answer). -/
def handleQuery (sq lg : ℚ → ℚ) (embed : List Char → Option (List ℚ))
    (gen : List Char → Option (List Char)) (corpus : List RChunk)
    (text : List Char) : FinalEvent × Bool :=
  match embed (expandQuery text) with
  | none => (.errorEvent, false)
  | some queryVector =>
    if corpus.isEmpty then (.queryResult noDocsMsg [], false)
    else
      let isId := isIdentityQuery text
      let queryTokens := dedupFirst (tokenize text)
      let ls := retrieveSources sq lg corpus text queryVector
      if topScoreOf ls < thresholdOf text then
        match (if isId then extractIdentityInfo ls else none) with
        | some ia => (.queryResult ia ls, false)
        | none =>
          match buildExtractiveAnswer sq lg queryTokens ls with
          | some ex => (.queryResult ex ls, false)
          | none => (.queryResult abstainMsg ls, false)
      else
        match (if isId then extractIdentityInfo ls else none) with
        | some ia => (.queryResult ia ls, false)
        | none =>
          let prompt := promptOf ls text
          match gen prompt with
          | none => (.queryResult genFailMsg ls, true)
          | some raw => (.queryResult (finalizeAnswer sq lg queryTokens ls prompt raw) ls, true)

/-! ## Ingestion and the chunk cache -/

structure IngestChunk where
  text : List Char
  page : Option Nat := none
  chunkIndex : Option Nat := none
deriving DecidableEq, Repr

structure WorkerState where
  cache : Option (List RChunk)
  store : List RChunk
deriving DecidableEq, Repr

/-- IndexedDB `put` on an object store keyed by `id`: upsert. -/
def putChunk (store : List RChunk) (c : RChunk) : List RChunk :=
  if store.any (fun x => decide (x.id = c.id)) then
    store.map (fun x => if x.id = c.id then c else x)
  else store ++ [c]

def ingestLoop (embed : List Char → Option (List ℚ)) (docId : List Char) :
    Nat → List IngestChunk → List RChunk → List RChunk × Bool
| _, [], store => (store, true)
| i, ch :: rest, store =>
  match embed ch.text with
  | none => (store, false)
  | some v => ingestLoop embed docId (i + 1) rest
      (putChunk store { id := docId ++ '-' :: natDigits i, docId := docId, text := ch.text,
                        page := ch.page, chunkIndex := ch.chunkIndex, embedding := v })

/-- The ingest handler: the in-memory cache is nulled before any chunk is
embedded or stored, so it ends up `none` whether or not the loop finishes;
the flag records whether every chunk was embedded and written. -/
def ingest (embed : List Char → Option (List ℚ)) (docId : List Char)
    (chunks : List IngestChunk) (st : WorkerState) : WorkerState × Bool :=
  let res := ingestLoop embed docId 0 chunks st.store
  ({ cache := none, store := res.1 }, res.2)

/-- The query-side cache read: hit the cache when it is populated, else read
everything from storage and populate it. -/
def readChunks (st : WorkerState) : List RChunk × WorkerState :=
  match st.cache with
  | some cs => (cs, st)
  | none => (st.store, { cache := some st.store, store := st.store })

/-! ## Concrete collaborators and corpus records used by the concrete runs -/

/-- Logarithm oracle used by concrete runs (the runs below never reach a
`Math.log` call whose value matters). -/
def lgq : ℚ → ℚ := fun _ => 0

/-- Embedding oracle used by concrete runs: every text embeds to `[1]`. -/
def embed1 : List Char → Option (List ℚ) := fun _ => some [1]

/-- Generation oracle used by concrete runs: the generator throws. -/
def genNone : List Char → Option (List Char) := fun _ => none

/-- A stored first chunk (page 1, chunk index 0) with empty text and the
one-dimensional embedding `[1]`. -/
def cB : RChunk := { id := str "d-0", docId := str "d", text := [],
                     page := some 1, chunkIndex := some 0, embedding := [1] }

/-- A stored first chunk (page 1, chunk index 0) whose text tokenizes to the
single token `"qqq"`, with the one-dimensional embedding `[1]`. -/
def cC : RChunk := { id := str "d-0", docId := str "d", text := str "qqq",
                     page := some 1, chunkIndex := some 0, embedding := [1] }

/-! # Helper lemmas -/

lemma normSq_nonneg (a : List ℚ) : 0 ≤ normSq a := by
  induction a with
  | nil => simp [normSq, dotProduct]
  | cons x t ih =>
    simp only [normSq, dotProduct, List.zipWith_cons_cons, List.sum_cons] at *
    have := mul_self_nonneg x
    linarith

lemma eq_zero_of_normSq_eq_zero {a : List ℚ} (h : normSq a = 0) : ∀ x ∈ a, x = 0 := by
  induction a with
  | nil => simp
  | cons x t ih =>
    simp only [normSq, dotProduct, List.zipWith_cons_cons, List.sum_cons] at h
    have ht : 0 ≤ normSq t := normSq_nonneg t
    have hx : 0 ≤ x * x := mul_self_nonneg x
    have hx0 : x * x = 0 := by
      simp only [normSq, dotProduct] at ht
      linarith
    have hxz : x = 0 := by
      rcases mul_self_eq_zero.mp hx0 with h
      exact h
    intro y hy
    rcases List.mem_cons.mp hy with h1 | h2
    · exact h1 ▸ hxz
    · have htz : normSq t = 0 := by
        simp only [normSq, dotProduct] at *
        linarith
      exact ih htz y h2

lemma dotProduct_eq_zero_left {a : List ℚ} (b : List ℚ) (h : ∀ x ∈ a, x = 0) :
    dotProduct a b = 0 := by
  induction a generalizing b with
  | nil => simp [dotProduct]
  | cons x t ih =>
    cases b with
    | nil => simp [dotProduct]
    | cons y u =>
      simp only [dotProduct, List.zipWith_cons_cons, List.sum_cons]
      have hx : x = 0 := h x (List.mem_cons_self x t)
      have : dotProduct t u = 0 := ih u (fun z hz => h z (List.mem_cons_of_mem x hz))
      simp only [dotProduct] at this
      simp [hx, this]

lemma dotProduct_eq_zero_right (a : List ℚ) {b : List ℚ} (h : ∀ x ∈ b, x = 0) :
    dotProduct a b = 0 := by
  induction a generalizing b with
  | nil => simp [dotProduct]
  | cons x t ih =>
    cases b with
    | nil => simp [dotProduct]
    | cons y u =>
      simp only [dotProduct, List.zipWith_cons_cons, List.sum_cons]
      have hy : y = 0 := h y (List.mem_cons_self y u)
      have : dotProduct t u = 0 := ih (fun z hz => h z (List.mem_cons_of_mem y hz))
      simp only [dotProduct] at this
      simp [hy, this]

lemma mem_putChunk {store : List RChunk} {x : RChunk} (c : RChunk)
    (h : c ∈ putChunk store x) : c ∈ store ∨ c = x := by
  unfold putChunk at h
  split at h
  · rcases List.mem_map.mp h with ⟨a, ha, hc⟩
    by_cases hid : a.id = x.id
    · right
      simpa [hid] using hc.symm
    · left
      have : a = c := by simpa [hid] using hc
      exact this ▸ ha
  · rcases List.mem_append.mp h with h1 | h2
    · exact Or.inl h1
    · exact Or.inr (by simpa using h2)

lemma ingestLoop_frame (embed : List Char → Option (List ℚ)) (docId : List Char) :
    ∀ (chunks : List IngestChunk) (i : Nat) (store : List RChunk),
      ∀ c ∈ (ingestLoop embed docId i chunks store).1, c ∈ store ∨ c.docId = docId := by
  intro chunks
  induction chunks with
  | nil => intro i store c hc; exact Or.inl (by simpa [ingestLoop] using hc)
  | cons ch rest ih =>
    intro i store c hc
    simp only [ingestLoop] at hc
    cases hemb : embed ch.text with
    | none => rw [hemb] at hc; exact Or.inl (by simpa using hc)
    | some v =>
      rw [hemb] at hc
      rcases ih (i + 1) _ c hc with h1 | h2
      · rcases mem_putChunk c h1 with h3 | h4
        · exact Or.inl h3
        · right; rw [h4]
      · exact Or.inr h2

/-! # Claim theorems -/

/-- C10: every ingest request sets the in-memory chunk cache to `none` before
embedding or storing anything, so the cache ends up invalidated even when the
embedding collaborator fails at the very first chunk; the next query-side read
then re-reads everything from storage, and the persisted store is changed only
by this ingest's own writes (any surviving record was either already stored or
carries this ingest's `docId`). -/
theorem C10_ingest_cache_invalidation (embed : List Char → Option (List ℚ))
    (docId : List Char) (chunks : List IngestChunk) (st : WorkerState) :
    (ingest embed docId chunks st).1.cache = none ∧
    (readChunks (ingest embed docId chunks st).1).1 = (ingest embed docId chunks st).1.store ∧
    (∀ c ∈ (ingest embed docId chunks st).1.store, c ∈ st.store ∨ c.docId = docId) := by
  refine ⟨rfl, rfl, ?_⟩
  intro c hc
  exact ingestLoop_frame embed docId chunks 0 st.store c hc

/-- C4: the source `cosineSimilarity` has no zero-norm guard, so on any pair
of equal-length vectors with a zero norm it computes `0 / 0`, which is NaN in
JS — a division failure, not the zero similarity the specification requires.
The hypothesis `sq 0 = 0` is the one fact about `Math.sqrt` the computation
uses. -/
theorem C4_cosine_zero_norm_is_nan (sq : ℚ → ℚ) (a b : List ℚ)
    (hlen : a.length = b.length) (hsq : sq 0 = 0)
    (h : normSq a = 0 ∨ normSq b = 0) : cosineSimilarityJS sq a b = JSNum.nan := by
  have htake : b.take a.length = b := by
    rw [hlen]; exact List.take_length b
  have hdot : dotProduct a b = 0 := by
    rcases h with h0 | h0
    · exact dotProduct_eq_zero_left b (eq_zero_of_normSq_eq_zero h0)
    · exact dotProduct_eq_zero_right a (eq_zero_of_normSq_eq_zero h0)
  rcases h with h0 | h0
  · simp [cosineSimilarityJS, htake, h0, hsq, hdot]
  · simp [cosineSimilarityJS, htake, h0, hsq, hdot]

/-- Witness for C4: the concrete failing input `a = [0]`, `b = [1]` (a
zero-norm query vector) produces NaN. -/
theorem C4_witness : cosineSimilarityJS ratSqrt [0] [1] = JSNum.nan :=
  C4_cosine_zero_norm_is_nan ratSqrt [0] [1] rfl
    (by norm_num [ratSqrt, isqrt, isqrtGo])
    (Or.inl (by norm_num [normSq, dotProduct]))

/-- C9: for an identity query, a chunk whose metadata has `chunkIndex = 0` and
`page = 1` receives both positional bonuses cumulatively: its semantic score
is its cosine similarity plus `0.15 + 0.075 = 0.225 = 9/40`. -/
theorem C9_cumulative_identity_boost (sq : ℚ → ℚ) (qv : List ℚ) (c : RChunk)
    (text : List Char) (hid : isIdentityQuery text = true)
    (hci : c.chunkIndex = some 0) (hp : c.page = some 1) :
    scoreChunk sq (isIdentityQuery text) qv c =
      cosineSimilarityQ sq qv c.embedding + 9/40 := by
  simp only [scoreChunk, hid, hci, hp, FIRST_CHUNK_BOOST]
  norm_num
  ring

/-- Witness for C9 at the query `"name"` and a concrete first chunk. -/
theorem C9_witness :
    scoreChunk ratSqrt (isIdentityQuery (str "name")) [1]
        { id := str "d-0", docId := str "d", text := str "hello world.",
          page := some 1, chunkIndex := some 0, embedding := [1] } =
      cosineSimilarityQ ratSqrt [1] [1] + 9/40 :=
  C9_cumulative_identity_boost ratSqrt [1] _ (str "name") (by decide) rfl rfl

/-- C3: a query against an empty corpus (with a succeeding embedder, which is
called before the corpus check) terminates with the fixed answer
`"No documents found."`, an empty source list, no error event, and no
invocation of the generation collaborator. -/
theorem C3_empty_corpus (sq lg : ℚ → ℚ) (embed : List Char → Option (List ℚ))
    (gen : List Char → Option (List Char)) (text : List Char) (qv : List ℚ)
    (hemb : embed (expandQuery text) = some qv) :
    handleQuery sq lg embed gen [] text = (.queryResult noDocsMsg [], false) := by
  unfold handleQuery
  rw [hemb]
  simp

/-- Witness for C3 with a concrete embedder and query. -/
theorem C3_witness :
    handleQuery ratSqrt (fun _ => 0) (fun _ => some [1]) (fun _ => none) []
        (str "hello") = (.queryResult noDocsMsg [], false) :=
  C3_empty_corpus ratSqrt (fun _ => 0) (fun _ => some [1]) (fun _ => none)
    (str "hello") [1] rfl

lemma mapGet_mapSet_self (m : List (Token × ℚ)) (k : Token) (v : ℚ) :
    mapGet (mapSet m k v) k = some v := by
  induction m with
  | nil => simp [mapSet, mapGet]
  | cons p rest ih =>
    obtain ⟨k0, v0⟩ := p
    by_cases h : k0 = k
    · simp [mapSet, mapGet, h]
    · simp [mapSet, mapGet, h, ih]

lemma mapGet_mapSet_ne (m : List (Token × ℚ)) (k k' : Token) (v : ℚ) (h : k ≠ k') :
    mapGet (mapSet m k v) k' = mapGet m k' := by
  induction m with
  | nil => simp [mapSet, mapGet, h]
  | cons p rest ih =>
    obtain ⟨k0, v0⟩ := p
    by_cases h0 : k0 = k
    · subst h0
      simp [mapSet, mapGet, h]
    · by_cases h1 : k0 = k'
      · simp [mapSet, mapGet, h0, h1, Ne.symm h]
      · simp [mapSet, mapGet, h0, h1, ih]

lemma foldl_rrfInsert_get_of_not_mem (r : List RankEntry) (m : List (Token × ℚ))
    (x : Token) (hx : x ∉ r.map RankEntry.id) :
    mapGet (r.foldl rrfInsert m) x = mapGet m x := by
  induction r generalizing m with
  | nil => simp
  | cons e rest ih =>
    simp only [List.map_cons, List.mem_cons, not_or] at hx
    simp only [List.foldl_cons]
    rw [ih (rrfInsert m e) hx.2]
    exact mapGet_mapSet_ne m e.id x _ (fun h => hx.1 h.symm)

lemma foldl_rrfInsert_get_of_mem (r : List RankEntry) (m : List (Token × ℚ))
    (e : RankEntry) (hnd : (r.map RankEntry.id).Nodup) (he : e ∈ r) :
    mapGet (r.foldl rrfInsert m) e.id =
      some ((mapGet m e.id).getD 0 + 1 / (RRF_K + (e.rank : ℚ))) := by
  induction r generalizing m with
  | nil => cases he
  | cons f rest ih =>
    simp only [List.map_cons, List.nodup_cons] at hnd
    rcases List.mem_cons.mp he with hef | hrest
    · subst hef
      simp only [List.foldl_cons]
      rw [foldl_rrfInsert_get_of_not_mem rest (rrfInsert m e) e.id hnd.1]
      simp [rrfInsert, mapGet_mapSet_self]
    · have hne : f.id ≠ e.id := by
        intro hcontra
        exact hnd.1 (hcontra ▸ List.mem_map_of_mem RankEntry.id hrest)
      simp only [List.foldl_cons]
      rw [ih (rrfInsert m f) hnd.2 hrest]
      simp only [rrfInsert]
      rw [mapGet_mapSet_ne m f.id e.id _ hne]

lemma rrf_two_identical_get (r : List RankEntry) (hnd : (r.map RankEntry.id).Nodup)
    (e : RankEntry) (he : e ∈ r) :
    (mapGet (reciprocalRankFusion [r, r]) e.id).getD 0 =
      2 / (RRF_K + (e.rank : ℚ)) := by
  simp only [reciprocalRankFusion, List.foldl_cons, List.foldl_nil]
  rw [foldl_rrfInsert_get_of_mem r _ e hnd he,
    foldl_rrfInsert_get_of_mem r [] e hnd he]
  simp [mapGet]
  ring

/-- C7: fusing a well-formed ranking with itself preserves its relative
order: for entries x and y of the ranking, x ranks strictly ahead of y
exactly when x's fused RRF score is strictly greater than y's. -/
theorem C7_rrf_identical_rankings_preserve_order (r : List RankEntry)
    (hnd : (r.map RankEntry.id).Nodup) (x y : RankEntry)
    (hx : x ∈ r) (hy : y ∈ r) :
    (x.rank < y.rank ↔
      (mapGet (reciprocalRankFusion [r, r]) y.id).getD 0 <
        (mapGet (reciprocalRankFusion [r, r]) x.id).getD 0) := by
  rw [rrf_two_identical_get r hnd x hx, rrf_two_identical_get r hnd y hy]
  have hxp : (0 : ℚ) < RRF_K + (x.rank : ℚ) := by
    unfold RRF_K; positivity
  have hyp : (0 : ℚ) < RRF_K + (y.rank : ℚ) := by
    unfold RRF_K; positivity
  rw [div_lt_div_iff hyp hxp]
  constructor
  · intro h
    have : (x.rank : ℚ) < (y.rank : ℚ) := by exact_mod_cast h
    nlinarith
  · intro h
    have : (x.rank : ℚ) < (y.rank : ℚ) := by nlinarith
    exact_mod_cast this

/-- Witness for C7 on the concrete two-element ranking [(a,1),(b,2)]. -/
theorem C7_witness :
    ((⟨str "a", 1⟩ : RankEntry).rank < (⟨str "b", 2⟩ : RankEntry).rank ↔
      (mapGet (reciprocalRankFusion
        [[⟨str "a", 1⟩, ⟨str "b", 2⟩], [⟨str "a", 1⟩, ⟨str "b", 2⟩]])
          (⟨str "b", 2⟩ : RankEntry).id).getD 0 <
        (mapGet (reciprocalRankFusion
          [[⟨str "a", 1⟩, ⟨str "b", 2⟩], [⟨str "a", 1⟩, ⟨str "b", 2⟩]])
            (⟨str "a", 1⟩ : RankEntry).id).getD 0) :=
  C7_rrf_identical_rankings_preserve_order
    [⟨str "a", 1⟩, ⟨str "b", 2⟩] (by decide) ⟨str "a", 1⟩ ⟨str "b", 2⟩
    (by decide) (by decide)

lemma foldl_add_eq (f : Token → ℚ) :
    ∀ (q : List Token) (a : ℚ), q.foldl (fun acc t => acc + f t) a = a + (q.map f).sum := by
  intro q
  induction q with
  | nil => intro a; simp
  | cons t rest ih =>
    intro a
    simp only [List.foldl_cons, List.map_cons, List.sum_cons]
    rw [ih (a + f t)]
    ring

lemma bm25Score_eq_sum (q d : List Token) (avg : ℚ) (m : List (Token × ℚ)) :
    bm25Score q d avg m = (q.map (fun term =>
      ((mapGet m term).getD 0) * (((d.count term : ℚ) * (BM25_K1 + 1)) /
        ((d.count term : ℚ) + BM25_K1 * (1 - BM25_B + BM25_B * ((d.length : ℚ) / avg)))))).sum := by
  unfold bm25Score
  rw [foldl_add_eq]
  simp

lemma bm25_term_mono (idf tf tf' dl avg : ℚ) (hidf : 0 ≤ idf) (h0 : 0 ≤ tf)
    (h : tf ≤ tf') (hdl : 0 ≤ dl) (havg : 0 < avg) :
    idf * ((tf * (BM25_K1 + 1)) / (tf + BM25_K1 * (1 - BM25_B + BM25_B * (dl / avg)))) ≤
      idf * ((tf' * (BM25_K1 + 1)) / (tf' + BM25_K1 * (1 - BM25_B + BM25_B * (dl / avg)))) := by
  have hr : 0 ≤ dl / avg := div_nonneg hdl havg.le
  have hC : (0 : ℚ) < BM25_K1 * (1 - BM25_B + BM25_B * (dl / avg)) := by
    unfold BM25_K1 BM25_B
    nlinarith
  apply mul_le_mul_of_nonneg_left _ hidf
  rw [div_le_div_iff (by linarith) (by linarith)]
  have hK : (0 : ℚ) < BM25_K1 + 1 := by unfold BM25_K1; norm_num
  nlinarith [mul_le_mul_of_nonneg_right h hC.le]

/-- C6: for a fixed query, fixed document length, fixed positive average
document length and fixed nonnegative IDF values, the BM25 score is
non-decreasing in the term frequency of any query term when all other query
term frequencies are held fixed. -/
theorem C6_bm25_monotone_in_tf (q d d' : List Token) (avg : ℚ)
    (m : List (Token × ℚ)) (t : Token) (havg : 0 < avg)
    (hidf : ∀ s, 0 ≤ (mapGet m s).getD 0)
    (hlen : d.length = d'.length)
    (hother : ∀ s ∈ q, s ≠ t → d'.count s = d.count s)
    (ht : d.count t ≤ d'.count t) :
    bm25Score q d avg m ≤ bm25Score q d' avg m := by
  rw [bm25Score_eq_sum, bm25Score_eq_sum]
  apply List.sum_le_sum
  intro s hs
  by_cases hst : s = t
  · subst hst
    rw [hlen]
    exact bm25_term_mono _ _ _ _ _ (hidf s) (by positivity)
      (by exact_mod_cast ht) (by positivity) havg
  · rw [hother s hs hst, hlen]

/-- Witness for C6: adding an occurrence of the query term (at equal document
length) does not decrease the score. -/
theorem C6_witness :
    bm25Score [str "abc"] [str "def"] 1 [(str "abc", 1)] ≤
      bm25Score [str "abc"] [str "abc"] 1 [(str "abc", 1)] :=
  C6_bm25_monotone_in_tf [str "abc"] [str "def"] [str "abc"] 1 [(str "abc", 1)]
    (str "abc") (by norm_num)
    (by
      intro s
      simp only [mapGet]
      split
      · norm_num
      · simp [mapGet])
    (by decide) (by decide) (by decide)

lemma bestIdxGo_lt (sq : ℚ → ℚ) (sel : List RChunk) :
    ∀ (l : List RChunk) (i bi : Nat) (bs : ℚ), bi < i →
      bestIdxGo sq sel l i bi bs < i + l.length := by
  intro l
  induction l with
  | nil => intro i bi bs h; simpa [bestIdxGo] using h
  | cons c rest ih =>
    intro i bi bs h
    simp only [bestIdxGo, List.length_cons]
    split
    · have := ih (i + 1) i (mmrScore sq sel c) (Nat.lt_succ_self i)
      omega
    · have := ih (i + 1) bi bs (Nat.lt_succ_of_lt h)
      omega

lemma bestIdx_lt (sq : ℚ → ℚ) (sel : List RChunk) (l : List RChunk) (h : l ≠ []) :
    bestIdx sq sel l < l.length := by
  cases l with
  | nil => exact absurd rfl h
  | cons c rest =>
    simp only [bestIdx, List.length_cons]
    have := bestIdxGo_lt sq sel rest 1 0 (mmrScore sq sel c) Nat.one_pos
    omega

lemma get_cons_eraseIdx_perm : ∀ (l : List RChunk) (i : Fin l.length),
    (l.get i :: l.eraseIdx i.val).Perm l := by
  intro l
  induction l with
  | nil => intro i; exact absurd i.isLt (by simp)
  | cons x t ih =>
    intro i
    cases i using Fin.cases with
    | zero => simp [List.eraseIdx]
    | succ j =>
      have h1 : (x :: t).get j.succ = t.get j := rfl
      have h2 : (x :: t).eraseIdx (j.succ : Fin (x :: t).length).val = x :: t.eraseIdx j.val := rfl
      rw [h1, h2]
      exact (List.Perm.swap x (t.get j) (t.eraseIdx j.val)).trans (List.Perm.cons x (ih j))

lemma mmrLoop_prefix (sq : ℚ → ℚ) (k : Nat) :
    ∀ (n : Nat) (selected remaining : List RChunk), remaining.length ≤ n →
      ∃ t, mmrLoop sq k selected remaining = selected ++ t := by
  intro n
  induction n with
  | zero =>
    intro selected remaining hn
    have : remaining = [] := List.length_eq_zero.mp (Nat.le_zero.mp hn)
    subst this
    rw [mmrLoop]
    exact ⟨[], by simp⟩
  | succ n ih =>
    intro selected remaining hn
    rw [mmrLoop]
    split
    · next hcond =>
      split
      · next hi =>
        have hlen : (remaining.eraseIdx (bestIdx sq selected remaining)).length ≤ n := by
          rw [List.length_eraseIdx]
          simp only [hi, if_true]
          omega
        obtain ⟨t, ht⟩ := ih (selected ++ [remaining.get ⟨bestIdx sq selected remaining, hi⟩]) _ hlen
        exact ⟨[remaining.get ⟨bestIdx sq selected remaining, hi⟩] ++ t,
          by rw [ht, List.append_assoc]⟩
      · exact ⟨[], by simp⟩
    · exact ⟨[], by simp⟩

lemma mmrLoop_length (sq : ℚ → ℚ) (k : Nat) :
    ∀ (n : Nat) (selected remaining : List RChunk), remaining.length ≤ n →
      selected.length ≤ k → (mmrLoop sq k selected remaining).length ≤ k := by
  intro n
  induction n with
  | zero =>
    intro selected remaining hn hs
    have : remaining = [] := List.length_eq_zero.mp (Nat.le_zero.mp hn)
    subst this
    rw [mmrLoop]
    simpa using hs
  | succ n ih =>
    intro selected remaining hn hs
    rw [mmrLoop]
    split
    · next hcond =>
      split
      · next hi =>
        apply ih
        · rw [List.length_eraseIdx]
          simp only [hi, if_true]
          omega
        · simp only [List.length_append, List.length_singleton]
          omega
      · exact hs
    · exact hs

lemma mmrLoop_count (sq : ℚ → ℚ) (k : Nat) :
    ∀ (n : Nat) (selected remaining : List RChunk), remaining.length ≤ n →
      ∀ x, (mmrLoop sq k selected remaining).count x ≤
        selected.count x + remaining.count x := by
  intro n
  induction n with
  | zero =>
    intro selected remaining hn x
    have : remaining = [] := List.length_eq_zero.mp (Nat.le_zero.mp hn)
    subst this
    rw [mmrLoop]
    simp
  | succ n ih =>
    intro selected remaining hn x
    rw [mmrLoop]
    split
    · next hcond =>
      split
      · next hi =>
        have hlen : (remaining.eraseIdx (bestIdx sq selected remaining)).length ≤ n := by
          rw [List.length_eraseIdx]
          simp only [hi, if_true]
          omega
        have h1 := ih (selected ++ [remaining.get ⟨bestIdx sq selected remaining, hi⟩]) _ hlen x
        have hperm := get_cons_eraseIdx_perm remaining ⟨bestIdx sq selected remaining, hi⟩
        have h2 := hperm.count_eq x
        simp only [List.count_cons] at h2
        simp only [List.count_append] at h1
        simp only [List.count_cons, List.count_nil] at h1
        omega
      · omega
    · omega

/-- C5 corrected claim: for candidates sorted descending by `combinedScore`
and any target size `k ≥ 1`: an input of size at most `k` is returned
unchanged; otherwise the output has length at most `k`, is a multiset-subset
of the input (no element introduced or duplicated), and starts with the
input's first (hence top-`combinedScore`) element; and the reranker is a pure
function, so identical inputs give identical output orders. -/
theorem C5_mmr_properties (sq : ℚ → ℚ) (qv : List ℚ) (k : Nat)
    (cands : List RChunk) (hk : 1 ≤ k)
    (hsorted : cands.Pairwise (fun a b => b.combinedScore ≤ a.combinedScore)) :
    (cands.length ≤ k → mmrRerank sq cands qv k = cands) ∧
    (k < cands.length →
      (mmrRerank sq cands qv k).length ≤ k ∧
      (∀ x : RChunk, (mmrRerank sq cands qv k).count x ≤ cands.count x) ∧
      (mmrRerank sq cands qv k).head? = cands.head? ∧
      (∀ y, cands.head? = some y → ∀ x ∈ cands, x.combinedScore ≤ y.combinedScore)) ∧
    mmrRerank sq cands qv k = mmrRerank sq cands qv k := by
  refine ⟨fun hle => by simp [mmrRerank, hle], fun hlt => ?_, rfl⟩
  have hnle : ¬(cands.length ≤ k) := by omega
  cases cands with
  | nil => simp at hlt
  | cons c rest =>
    have hre : mmrRerank sq (c :: rest) qv k = mmrLoop sq k [c] rest := by
      unfold mmrRerank
      rw [if_neg hnle]
    refine ⟨?_, ?_, ?_, ?_⟩
    · rw [hre]
      exact mmrLoop_length sq k rest.length [c] rest le_rfl (by simpa using hk)
    · intro x
      rw [hre]
      have h := mmrLoop_count sq k rest.length [c] rest le_rfl x
      rw [show (c :: rest) = [c] ++ rest from rfl, List.count_append]
      exact h
    · rw [hre]
      obtain ⟨t, ht⟩ := mmrLoop_prefix sq k rest.length [c] rest le_rfl
      rw [ht]
      simp
    · intro y hy x hx
      simp only [List.head?_cons, Option.some.injEq] at hy
      subst hy
      rcases List.mem_cons.mp hx with h1 | h2
      · exact h1 ▸ le_rfl
      · exact (List.pairwise_cons.mp hsorted).1 x h2

/-- Counterexample for C5 as frozen: at target size `k = 0` a nonempty input
still produces one selected element, so the claimed bound `length ≤ k` fails. -/
theorem C5_counterexample :
    mmrRerank ratSqrt [{ id := str "c0" }] [] 0 = [{ id := str "c0" }] ∧
      ¬((mmrRerank ratSqrt [{ id := str "c0" }] [] 0).length ≤ 0) := by
  have h : mmrRerank ratSqrt [{ id := str "c0" }] [] 0 = [{ id := str "c0" }] := by
    rw [mmrRerank]
    simp
    rw [mmrLoop]
    simp
  exact ⟨h, by rw [h]; simp⟩

/-- Witness for C5 on a concrete sorted two-candidate list with `k = 1`. -/
theorem C5_witness :
    (([{ id := str "a", combinedScore := 2 }, { id := str "b", combinedScore := 1 }] :
        List RChunk).length ≤ 1 →
      mmrRerank ratSqrt
        [{ id := str "a", combinedScore := 2 }, { id := str "b", combinedScore := 1 }] [] 1 =
        [{ id := str "a", combinedScore := 2 }, { id := str "b", combinedScore := 1 }]) ∧
    (1 < ([{ id := str "a", combinedScore := 2 }, { id := str "b", combinedScore := 1 }] :
        List RChunk).length →
      (mmrRerank ratSqrt
        [{ id := str "a", combinedScore := 2 }, { id := str "b", combinedScore := 1 }] [] 1).length ≤ 1 ∧
      (∀ x : RChunk, (mmrRerank ratSqrt
        [{ id := str "a", combinedScore := 2 }, { id := str "b", combinedScore := 1 }] [] 1).count x ≤
        ([{ id := str "a", combinedScore := 2 }, { id := str "b", combinedScore := 1 }] :
          List RChunk).count x) ∧
      (mmrRerank ratSqrt
        [{ id := str "a", combinedScore := 2 }, { id := str "b", combinedScore := 1 }] [] 1).head? =
        ([{ id := str "a", combinedScore := 2 }, { id := str "b", combinedScore := 1 }] :
          List RChunk).head? ∧
      (∀ y, ([{ id := str "a", combinedScore := 2 }, { id := str "b", combinedScore := 1 }] :
          List RChunk).head? = some y →
        ∀ x ∈ ([{ id := str "a", combinedScore := 2 }, { id := str "b", combinedScore := 1 }] :
          List RChunk), x.combinedScore ≤ y.combinedScore)) ∧
    mmrRerank ratSqrt
      [{ id := str "a", combinedScore := 2 }, { id := str "b", combinedScore := 1 }] [] 1 =
      mmrRerank ratSqrt
        [{ id := str "a", combinedScore := 2 }, { id := str "b", combinedScore := 1 }] [] 1 :=
  C5_mmr_properties ratSqrt [] 1
    [{ id := str "a", combinedScore := 2 }, { id := str "b", combinedScore := 1 }]
    (by norm_num)
    (by
      refine List.Pairwise.cons ?_ (List.Pairwise.cons ?_ List.Pairwise.nil)
      · intro a ha
        simp only [List.mem_singleton] at ha
        subst ha
        norm_num
      · intro a ha
        simp at ha)

set_option maxHeartbeats 1600000 in
/-- C2: whenever the top combined score is strictly below the applicable
threshold (computed from the raw query's word count and identity flag), the
generation collaborator is never invoked: the query terminates through
identity extraction, extractive summarization, or the abstention message,
with the labelled sources attached. -/
theorem C2_confidence_gate (sq lg : ℚ → ℚ) (embed : List Char → Option (List ℚ))
    (gen : List Char → Option (List Char)) (corpus : List RChunk) (text : List Char)
    (qv : List ℚ) (hemb : embed (expandQuery text) = some qv) (hne : corpus ≠ [])
    (hlow : topScoreOf (retrieveSources sq lg corpus text qv) < thresholdOf text) :
    (handleQuery sq lg embed gen corpus text).2 = false ∧
    ∃ a, (handleQuery sq lg embed gen corpus text).1 =
        FinalEvent.queryResult a (retrieveSources sq lg corpus text qv) ∧
      ((isIdentityQuery text = true ∧
          extractIdentityInfo (retrieveSources sq lg corpus text qv) = some a) ∨
        buildExtractiveAnswer sq lg (dedupFirst (tokenize text))
          (retrieveSources sq lg corpus text qv) = some a ∨
        a = abstainMsg) := by
  have hie : corpus.isEmpty = false := by
    cases corpus
    · exact absurd rfl hne
    · rfl
  unfold handleQuery
  rw [hemb, hie]
  simp only [Bool.false_eq_true, if_false]
  rw [if_pos hlow]
  by_cases hid : isIdentityQuery text = true
  · rw [if_pos hid]
    cases hext : extractIdentityInfo (retrieveSources sq lg corpus text qv) with
    | some ia =>
      exact ⟨rfl, ia, rfl, Or.inl ⟨hid, rfl⟩⟩
    | none =>
      cases hbe : buildExtractiveAnswer sq lg (dedupFirst (tokenize text))
          (retrieveSources sq lg corpus text qv) with
      | some ex => exact ⟨rfl, ex, rfl, Or.inr (Or.inl rfl)⟩
      | none => exact ⟨rfl, abstainMsg, rfl, Or.inr (Or.inr rfl)⟩
  · rw [if_neg hid]
    cases hbe : buildExtractiveAnswer sq lg (dedupFirst (tokenize text))
        (retrieveSources sq lg corpus text qv) with
    | some ex => exact ⟨rfl, ex, rfl, Or.inr (Or.inl rfl)⟩
    | none => exact ⟨rfl, abstainMsg, rfl, Or.inr (Or.inr rfl)⟩

lemma combined_zzzz : combinedStage ratSqrt lgq [cB] (str "zzzz") [1] =
    [{ cB with score := 1, bm25Score := 0, combinedScore := 1/61 + 1/61 }] := by
  norm_num [combinedStage, topKStage, avgDocLenOf, idfMapOf, withBM25Stage, rrfStage,
    scoredStage, sortDesc, insertDesc, scoreChunk, cosineSimilarityQ,
    ratSqrt, isqrt, isqrtGo, dotProduct, normSq, cB, lgq, tokenize, toLowerList, splitWS,
    splitWSAux, isWS, isLowerAlnum, dedupFirst, dedupFirstAux, computeIDF, mapSet, mapGet,
    bm25Score, rankFrom, reciprocalRankFusion, rrfInsert, RRF_K, BM25_K1, BM25_B, str,
    trimList, (by decide : isIdentityQuery ['z', 'z', 'z', 'z'] = false)]

lemma sources_zzzz : retrieveSources ratSqrt lgq [cB] (str "zzzz") [1] =
    [{ cB with score := 1, bm25Score := 0, combinedScore := 1/61 + 1/61,
               sourceId := str "S1" }] := by
  rw [retrieveSources, combined_zzzz]
  norm_num [mmrRerank, labelFrom, str,
    (by decide : natDigits 1 = ['1'])]

lemma topScore_zzzz :
    topScoreOf (retrieveSources ratSqrt lgq [cB] (str "zzzz") [1]) <
      thresholdOf (str "zzzz") := by
  rw [sources_zzzz]
  norm_num [topScoreOf, thresholdOf,
    (by decide : isIdentityQuery (str "zzzz") = false),
    (by decide : wordCountOf (str "zzzz") = 1)]

/-- Witness for C2: a one-word non-identity query against a one-chunk corpus;
the top combined score 2/61 is below the short-query threshold 8/100, and the
theorem applies. -/
theorem C2_witness :
    (handleQuery ratSqrt lgq embed1 genNone [cB] (str "zzzz")).2 = false ∧
    ∃ a, (handleQuery ratSqrt lgq embed1 genNone [cB] (str "zzzz")).1 =
        FinalEvent.queryResult a (retrieveSources ratSqrt lgq [cB] (str "zzzz") [1]) ∧
      ((isIdentityQuery (str "zzzz") = true ∧
          extractIdentityInfo (retrieveSources ratSqrt lgq [cB] (str "zzzz") [1]) = some a) ∨
        buildExtractiveAnswer ratSqrt lgq (dedupFirst (tokenize (str "zzzz")))
          (retrieveSources ratSqrt lgq [cB] (str "zzzz") [1]) = some a ∨
        a = abstainMsg) :=
  C2_confidence_gate ratSqrt lgq embed1 genNone [cB] (str "zzzz") [1] rfl
    (by simp [cB]) topScore_zzzz

lemma insertDesc_perm (key : α → ℚ) (x : α) (l : List α) :
    (insertDesc key x l).Perm (x :: l) := by
  induction l with
  | nil => simp [insertDesc]
  | cons y ys ih =>
    unfold insertDesc
    split
    · exact List.Perm.refl _
    · exact (List.Perm.cons y ih).trans (List.Perm.swap x y ys)

lemma sortDesc_perm (key : α → ℚ) (l : List α) : (sortDesc key l).Perm l := by
  induction l with
  | nil => simp [sortDesc]
  | cons x xs ih =>
    exact (insertDesc_perm key x (sortDesc key xs)).trans (List.Perm.cons x ih)

lemma mem_sortDesc {key : α → ℚ} {l : List α} {x : α} : x ∈ sortDesc key l ↔ x ∈ l :=
  (sortDesc_perm key l).mem_iff

lemma scoreChunk_bounds (sq : ℚ → ℚ) (isId : Bool) (qv : List ℚ) (c : RChunk)
    (h1 : -1 ≤ cosineSimilarityQ sq qv c.embedding)
    (h2 : cosineSimilarityQ sq qv c.embedding ≤ 1) :
    -1 ≤ scoreChunk sq isId qv c ∧ scoreChunk sq isId qv c ≤ 49/40 := by
  unfold scoreChunk FIRST_CHUNK_BOOST
  split <;> split <;> constructor <;> linarith

lemma computeIDF_nonneg (lg : ℚ → ℚ) (hlog : ∀ q, 1 ≤ q → 0 ≤ lg q)
    (term : Token) (docs : List (List Token)) : 0 ≤ computeIDF lg term docs := by
  simp only [computeIDF]
  split
  · exact le_rfl
  · apply hlog
    have hn : ((docs.filter (fun d => decide (term ∈ d))).length : ℚ) ≤ (docs.length : ℚ) := by
      exact_mod_cast List.length_filter_le _ _
    have hd : (0 : ℚ) <
        ((docs.filter (fun d => decide (term ∈ d))).length : ℚ) + 1/2 := by positivity
    have : (0 : ℚ) ≤ ((docs.length : ℚ) -
        ((docs.filter (fun d => decide (term ∈ d))).length : ℚ) + 1/2) /
        (((docs.filter (fun d => decide (term ∈ d))).length : ℚ) + 1/2) :=
      div_nonneg (by linarith) hd.le
    linarith

lemma mapGet_foldl_mapSet_nonneg (f : Token → ℚ) (hf : ∀ t, 0 ≤ f t) :
    ∀ (l : List Token) (m : List (Token × ℚ)), (∀ t, 0 ≤ (mapGet m t).getD 0) →
      ∀ t, 0 ≤ (mapGet (l.foldl (fun m t => mapSet m t (f t)) m) t).getD 0 := by
  intro l
  induction l with
  | nil => intro m hm t; exact hm t
  | cons t0 rest ih =>
    intro m hm t
    simp only [List.foldl_cons]
    apply ih
    intro t'
    by_cases h : t0 = t'
    · subst h
      rw [mapGet_mapSet_self]
      simpa using hf t0
    · rw [mapGet_mapSet_ne m t0 t' _ h]
      exact hm t'

lemma bm25Score_nonneg (q d : List Token) (avg : ℚ) (m : List (Token × ℚ))
    (havg : 0 ≤ avg) (hm : ∀ t, 0 ≤ (mapGet m t).getD 0) :
    0 ≤ bm25Score q d avg m := by
  rw [bm25Score_eq_sum]
  apply List.sum_nonneg
  intro x hx
  rcases List.mem_map.mp hx with ⟨t, ht, rfl⟩
  apply mul_nonneg (hm t)
  apply div_nonneg
  · have : (0 : ℚ) ≤ (d.count t : ℚ) := by positivity
    unfold BM25_K1
    linarith
  · have hdiv : (0 : ℚ) ≤ (d.length : ℚ) / avg :=
      div_nonneg (by positivity) havg
    have : (0 : ℚ) ≤ (d.count t : ℚ) := by positivity
    unfold BM25_K1 BM25_B
    linarith

lemma rankFrom_map_id (n : Nat) (l : List RChunk) :
    (rankFrom n l).map RankEntry.id = l.map RChunk.id := by
  induction l generalizing n with
  | nil => simp [rankFrom]
  | cons c cs ih => simp [rankFrom, ih]

lemma exists_rankFrom_entry : ∀ (n : Nat) (l : List RChunk) (x : RChunk), x ∈ l →
    ∃ e ∈ rankFrom n l, e.id = x.id ∧ n ≤ e.rank := by
  intro n l
  induction l generalizing n with
  | nil => intro x hx; cases hx
  | cons c cs ih =>
    intro x hx
    rcases List.mem_cons.mp hx with h1 | h2
    · exact ⟨⟨c.id, n⟩, List.mem_cons_self _ _, by rw [h1], le_rfl⟩
    · obtain ⟨e, he, hid, hr⟩ := ih (n + 1) x h2
      exact ⟨e, List.mem_cons_of_mem _ he, hid, by omega⟩

lemma rrf_two_rankings_bound (r1 r2 : List RankEntry)
    (h1 : (r1.map RankEntry.id).Nodup) (h2 : (r2.map RankEntry.id).Nodup)
    (x : Token) (e1 : RankEntry) (he1 : e1 ∈ r1) (hid1 : e1.id = x) (hr1 : 1 ≤ e1.rank)
    (e2 : RankEntry) (he2 : e2 ∈ r2) (hid2 : e2.id = x) (hr2 : 1 ≤ e2.rank) :
    0 < (mapGet (reciprocalRankFusion [r1, r2]) x).getD 0 ∧
      (mapGet (reciprocalRankFusion [r1, r2]) x).getD 0 ≤ 2/61 := by
  have hm1 : mapGet (r1.foldl rrfInsert []) x =
      some ((mapGet ([] : List (Token × ℚ)) e1.id).getD 0 + 1 / (RRF_K + (e1.rank : ℚ))) := by
    rw [← hid1]
    exact foldl_rrfInsert_get_of_mem r1 [] e1 h1 he1
  have hm2 : mapGet (reciprocalRankFusion [r1, r2]) x =
      some ((mapGet (r1.foldl rrfInsert []) e2.id).getD 0 + 1 / (RRF_K + (e2.rank : ℚ))) := by
    simp only [reciprocalRankFusion, List.foldl_cons, List.foldl_nil]
    rw [← hid2]
    exact foldl_rrfInsert_get_of_mem r2 _ e2 h2 he2
  rw [hid2] at hm2
  rw [hm2, hm1]
  simp only [mapGet, Option.getD_some, Option.getD_none]
  have p1 : (0 : ℚ) < RRF_K + (e1.rank : ℚ) := by unfold RRF_K; positivity
  have p2 : (0 : ℚ) < RRF_K + (e2.rank : ℚ) := by unfold RRF_K; positivity
  have b1 : 1 / (RRF_K + (e1.rank : ℚ)) ≤ 1/61 := by
    apply one_div_le_one_div_of_le (by norm_num)
    unfold RRF_K
    have : (1 : ℚ) ≤ (e1.rank : ℚ) := by exact_mod_cast hr1
    linarith
  have b2 : 1 / (RRF_K + (e2.rank : ℚ)) ≤ 1/61 := by
    apply one_div_le_one_div_of_le (by norm_num)
    unfold RRF_K
    have : (1 : ℚ) ≤ (e2.rank : ℚ) := by exact_mod_cast hr2
    linarith
  have q1 : 0 < 1 / (RRF_K + (e1.rank : ℚ)) := by positivity
  have q2 : 0 < 1 / (RRF_K + (e2.rank : ℚ)) := by positivity
  constructor <;> linarith

lemma map_id_of_update (f : RChunk → RChunk) (hf : ∀ c, (f c).id = c.id) :
    ∀ l : List RChunk, (l.map f).map RChunk.id = l.map RChunk.id := by
  intro l
  induction l with
  | nil => simp
  | cons c cs ih => simp [hf, ih]

lemma topKStage_elem (sq : ℚ → ℚ) (isId : Bool) (qv : List ℚ) (corpus : List RChunk) :
    ∀ t ∈ topKStage sq isId qv corpus, ∃ c ∈ corpus,
      t = { c with score := scoreChunk sq isId qv c } := by
  intro t ht
  have h1 : t ∈ scoredStage sq isId qv corpus := List.mem_of_mem_take ht
  simp only [scoredStage] at h1
  rw [mem_sortDesc] at h1
  obtain ⟨c, hc, rfl⟩ := List.mem_map.mp h1
  exact ⟨c, hc, rfl⟩

lemma topKStage_ids_nodup (sq : ℚ → ℚ) (isId : Bool) (qv : List ℚ)
    (corpus : List RChunk) (h : (corpus.map RChunk.id).Nodup) :
    ((topKStage sq isId qv corpus).map RChunk.id).Nodup := by
  have hperm : ((scoredStage sq isId qv corpus).map RChunk.id).Perm
      (corpus.map RChunk.id) := by
    have h1 := (sortDesc_perm (fun c => c.score)
      (corpus.map (fun c => { c with score := scoreChunk sq isId qv c }))).map RChunk.id
    rw [map_id_of_update (fun c => { c with score := scoreChunk sq isId qv c })
      (fun c => rfl)] at h1
    exact h1
  have hnodup2 : ((scoredStage sq isId qv corpus).map RChunk.id).Nodup :=
    hperm.nodup_iff.mpr h
  unfold topKStage
  rw [List.map_take]
  exact (List.take_sublist _ _).nodup hnodup2

lemma withBM25Stage_elem (lg : ℚ → ℚ) (topK : List RChunk) (qArr : List Token) :
    ∀ w ∈ withBM25Stage lg topK qArr, ∃ t ∈ topK,
      w = { t with
            bm25Score := bm25Score qArr (tokenize t.text)
              (avgDocLenOf (topK.map (fun c => tokenize c.text)))
              (idfMapOf lg qArr (topK.map (fun c => tokenize c.text))) } := by
  intro w hw
  simp only [withBM25Stage] at hw
  obtain ⟨t, ht, rfl⟩ := List.mem_map.mp hw
  exact ⟨t, ht, rfl⟩

lemma withBM25Stage_ids (lg : ℚ → ℚ) (topK : List RChunk) (qArr : List Token) :
    (withBM25Stage lg topK qArr).map RChunk.id = topK.map RChunk.id := by
  simp only [withBM25Stage]
  exact map_id_of_update (fun c =>
    { c with
      bm25Score := bm25Score qArr (tokenize c.text)
        (avgDocLenOf (topK.map (fun c => tokenize c.text)))
        (idfMapOf lg qArr (topK.map (fun c => tokenize c.text))) }) (fun c => rfl) topK

lemma avgDocLenOf_nonneg (docs : List (List Token)) : 0 ≤ avgDocLenOf docs := by
  unfold avgDocLenOf
  apply div_nonneg
  · apply List.sum_nonneg
    intro y hy
    rcases List.mem_map.mp hy with ⟨d, hd, rfl⟩
    positivity
  · split <;> positivity

lemma idfMapOf_nonneg (lg : ℚ → ℚ) (hlog : ∀ q, 1 ≤ q → 0 ≤ lg q)
    (qArr : List Token) (docs : List (List Token)) :
    ∀ t, 0 ≤ (mapGet (idfMapOf lg qArr docs) t).getD 0 := by
  unfold idfMapOf
  apply mapGet_foldl_mapSet_nonneg (fun t => computeIDF lg t docs)
    (fun t => computeIDF_nonneg lg hlog t docs)
  intro t
  simp [mapGet]

lemma rrfStage_elem (w : List RChunk) (hn : (w.map RChunk.id).Nodup) :
    ∀ x ∈ rrfStage w, (∃ v ∈ w, x.text = v.text ∧ x.score = v.score ∧
      x.bm25Score = v.bm25Score) ∧
      0 < x.combinedScore ∧ x.combinedScore ≤ 2/61 := by
  intro x hx
  simp only [rrfStage] at hx
  rw [mem_sortDesc] at hx
  obtain ⟨v, hv, rfl⟩ := List.mem_map.mp hx
  refine ⟨⟨v, hv, rfl, rfl, rfl⟩, ?_⟩
  have hsem_ids : ((rankFrom 1 (sortDesc (fun c => c.score) w)).map RankEntry.id).Nodup := by
    rw [rankFrom_map_id]
    exact (((sortDesc_perm (fun c => c.score) w).map RChunk.id).nodup_iff).mpr hn
  have hbm_ids : ((rankFrom 1 (sortDesc (fun c => c.bm25Score) w)).map RankEntry.id).Nodup := by
    rw [rankFrom_map_id]
    exact (((sortDesc_perm (fun c => c.bm25Score) w).map RChunk.id).nodup_iff).mpr hn
  obtain ⟨e1, he1, hid1, hr1⟩ := exists_rankFrom_entry 1
    (sortDesc (fun c => c.score) w) v (mem_sortDesc.mpr hv)
  obtain ⟨e2, he2, hid2, hr2⟩ := exists_rankFrom_entry 1
    (sortDesc (fun c => c.bm25Score) w) v (mem_sortDesc.mpr hv)
  exact rrf_two_rankings_bound _ _ hsem_ids hbm_ids v.id e1 he1 hid1 hr1 e2 he2 hid2 hr2

lemma foldl_val_of_step (f : JSNum → Token → JSNum) (g : ℚ → Token → ℚ)
    (hstep : ∀ a t, f (JSNum.val a) t = JSNum.val (g a t)) :
    ∀ (q : List Token) (a : ℚ), q.foldl f (JSNum.val a) = JSNum.val (q.foldl g a) := by
  intro q
  induction q with
  | nil => intro a; rfl
  | cons t ts ih =>
    intro a
    rw [List.foldl_cons, List.foldl_cons, hstep]
    exact ih _

/-- Off the degenerate zero-average corner, the JS BM25 computation produces
exactly the rational value the pipeline model stores: every per-term
denominator is a positive rational, so no NaN or infinity ever arises. -/
lemma bm25ScoreJS_val (q d : List Token) (avg : ℚ) (m : List (Token × ℚ))
    (havg : 0 < avg) : bm25ScoreJS q d avg m = JSNum.val (bm25Score q d avg m) := by
  unfold bm25ScoreJS bm25Score
  dsimp only
  refine foldl_val_of_step _ _ ?_ q 0
  intro a t
  dsimp only
  have htf : (0 : ℚ) ≤ (d.count t : ℚ) := by positivity
  have hdl : (0 : ℚ) ≤ (d.length : ℚ) / avg :=
    div_nonneg (by positivity) havg.le
  have hden : (0 : ℚ) < (d.count t : ℚ) +
      BM25_K1 * (1 - BM25_B + BM25_B * ((d.length : ℚ) / avg)) := by
    unfold BM25_K1 BM25_B
    linarith
  simp only [jsDiv, jsMul, jsAdd, if_neg havg.ne', if_neg hden.ne']

/-- C8 corrected claim: every ScoredCandidate built by the fusion stage has
`combinedScore` in `(0, 2/61] ⊆ (0, 2/60]` and its semantic score lies in
`[-1, 49/40]`, not `[-1, 1]`: on identity queries the positional boosts
(+0.15 and +0.075) can push a cosine of 1 up to 1.225.  The `bm25Score`
range claim holds only off a degenerate corner: when the average token count
of the top-K candidates is positive, the stored `bm25Score` is nonnegative
and equals the value the JS arithmetic computes (`bm25ScoreJS`); when every
top-K text is tokenless the JS value is NaN (see the counterexample).
Hypotheses: stored chunk ids are unique (IndexedDB keys them), the cosine
values on the corpus lie within [-1, 1] (true of the real `Math.sqrt` by the
Cauchy-Schwarz inequality), `Math.log` is nonnegative on `[1, ∞)`, and the
top-K average document length is positive. -/
theorem C8_scored_candidate_ranges (sq lg : ℚ → ℚ) (corpus : List RChunk)
    (text : List Char) (qv : List ℚ)
    (hnodup : (corpus.map RChunk.id).Nodup)
    (hcos : ∀ c ∈ corpus, -1 ≤ cosineSimilarityQ sq qv c.embedding ∧
      cosineSimilarityQ sq qv c.embedding ≤ 1)
    (hlog : ∀ q, 1 ≤ q → 0 ≤ lg q)
    (hpos : 0 < avgDocLenOf ((topKStage sq (isIdentityQuery text) qv corpus).map
      (fun c => tokenize c.text))) :
    ∀ x ∈ combinedStage sq lg corpus text qv,
      (-1 ≤ x.score ∧ x.score ≤ 49/40) ∧
      (0 ≤ x.bm25Score ∧
        bm25ScoreJS (dedupFirst (tokenize text)) (tokenize x.text)
          (avgDocLenOf ((topKStage sq (isIdentityQuery text) qv corpus).map
            (fun c => tokenize c.text)))
          (idfMapOf lg (dedupFirst (tokenize text))
            ((topKStage sq (isIdentityQuery text) qv corpus).map
              (fun c => tokenize c.text))) = JSNum.val x.bm25Score) ∧
      (0 < x.combinedScore ∧ x.combinedScore ≤ 2/61) := by
  intro x hx
  simp only [combinedStage] at hx
  have hnW : ((withBM25Stage lg (topKStage sq (isIdentityQuery text) qv corpus)
      (dedupFirst (tokenize text))).map RChunk.id).Nodup := by
    rw [withBM25Stage_ids]
    exact topKStage_ids_nodup sq (isIdentityQuery text) qv corpus hnodup
  obtain ⟨⟨v, hv, htx, hsc, hbm⟩, hcombined⟩ := rrfStage_elem _ hnW x hx
  obtain ⟨t, ht, rfl⟩ := withBM25Stage_elem _ _ _ v hv
  obtain ⟨c, hc, rfl⟩ := topKStage_elem _ _ _ _ t ht
  refine ⟨?_, ⟨?_, ?_⟩, hcombined⟩
  · rw [hsc]
    exact scoreChunk_bounds sq _ qv c (hcos c hc).1 (hcos c hc).2
  · rw [hbm]
    exact bm25Score_nonneg _ _ _ _ (avgDocLenOf_nonneg _)
      (idfMapOf_nonneg lg hlog _ _)
  · rw [hbm, htx]
    exact bm25ScoreJS_val _ _ _ _ hpos

lemma combined_name : combinedStage ratSqrt lgq [cB] (str "name") [1] =
    [{ cB with score := 1 + 3/20 + 3/20 * (1/2), bm25Score := 0,
               combinedScore := 1/61 + 1/61 }] := by
  norm_num [combinedStage, topKStage, avgDocLenOf, idfMapOf, withBM25Stage, rrfStage,
    scoredStage, sortDesc, insertDesc, scoreChunk, cosineSimilarityQ,
    ratSqrt, isqrt, isqrtGo, dotProduct, normSq, cB, lgq, tokenize, toLowerList, splitWS,
    splitWSAux, isWS, isLowerAlnum, dedupFirst, dedupFirstAux, computeIDF, mapSet, mapGet,
    bm25Score, rankFrom, reciprocalRankFusion, rrfInsert, RRF_K, BM25_K1, BM25_B, str,
    trimList, FIRST_CHUNK_BOOST, (by decide : isIdentityQuery ['n', 'a', 'm', 'e'] = true)]

lemma topK_zzzz : topKStage ratSqrt (isIdentityQuery (str "zzzz")) [1] [cB] =
    [{ cB with score := 1 }] := by
  norm_num [topKStage, scoredStage, sortDesc, insertDesc, scoreChunk, cosineSimilarityQ,
    ratSqrt, isqrt, isqrtGo, dotProduct, normSq, cB, str, FIRST_CHUNK_BOOST,
    (by decide : isIdentityQuery ['z', 'z', 'z', 'z'] = false)]

/-- Counterexample for C8 as frozen and for the unconditional `[0, ∞)` BM25
range: on the identity query `"name"`, a first chunk whose cosine similarity
is 1 gets semantic score 49/40 = 1.225, outside the claimed range [-1, 1];
and on the `"zzzz"` run against a tokenless chunk the pipeline model stores
`bm25Score = 0` while the JS arithmetic computes NaN (the average document
length of the top-K stage is 0/1 = 0, so the per-term denominator is NaN). -/
theorem C8_counterexample :
    ((combinedStage ratSqrt lgq [cB] (str "name") [1]).map RChunk.score = [49/40] ∧
      ¬((49 : ℚ)/40 ≤ 1)) ∧
    ((combinedStage ratSqrt lgq [cB] (str "zzzz") [1]).map RChunk.bm25Score = [0] ∧
      bm25ScoreJS (dedupFirst (tokenize (str "zzzz"))) (tokenize cB.text)
        (avgDocLenOf ((topKStage ratSqrt (isIdentityQuery (str "zzzz")) [1] [cB]).map
          (fun c => tokenize c.text)))
        (idfMapOf lgq (dedupFirst (tokenize (str "zzzz")))
          ((topKStage ratSqrt (isIdentityQuery (str "zzzz")) [1] [cB]).map
            (fun c => tokenize c.text))) = JSNum.nan) := by
  refine ⟨⟨?_, by norm_num⟩, ?_, ?_⟩
  · rw [combined_name]
    norm_num
  · rw [combined_zzzz]
    rfl
  · rw [topK_zzzz]
    norm_num [bm25ScoreJS, jsAdd, jsMul, jsDiv, avgDocLenOf, idfMapOf, computeIDF,
      mapSet, mapGet, tokenize, toLowerList, splitWS, splitWSAux, isWS, isLowerAlnum,
      dedupFirst, dedupFirstAux, cB, lgq, str, BM25_K1, BM25_B, trimList]

lemma topK_name_cC : topKStage ratSqrt (isIdentityQuery (str "name")) [1] [cC] =
    [{ cC with score := 1 + 3/20 + 3/20 * (1/2) }] := by
  norm_num [topKStage, scoredStage, sortDesc, insertDesc, scoreChunk, cosineSimilarityQ,
    ratSqrt, isqrt, isqrtGo, dotProduct, normSq, cC, str, FIRST_CHUNK_BOOST,
    (by decide : isIdentityQuery ['n', 'a', 'm', 'e'] = true)]

lemma avg_name_cC :
    avgDocLenOf ((topKStage ratSqrt (isIdentityQuery (str "name")) [1] [cC]).map
      (fun c => tokenize c.text)) = 1 := by
  rw [topK_name_cC]
  norm_num [avgDocLenOf, cC, str,
    (by decide : tokenize ['q', 'q', 'q'] = [['q', 'q', 'q']])]

lemma combined_name_cC : combinedStage ratSqrt lgq [cC] (str "name") [1] =
    [{ cC with score := 1 + 3/20 + 3/20 * (1/2), bm25Score := 0,
               combinedScore := 1/61 + 1/61 }] := by
  norm_num [combinedStage, topKStage, avgDocLenOf, idfMapOf, withBM25Stage, rrfStage,
    scoredStage, sortDesc, insertDesc, scoreChunk, cosineSimilarityQ,
    ratSqrt, isqrt, isqrtGo, dotProduct, normSq, cC, lgq, tokenize, toLowerList, splitWS,
    splitWSAux, isWS, isLowerAlnum, dedupFirst, dedupFirstAux, computeIDF, mapSet, mapGet,
    bm25Score, rankFrom, reciprocalRankFusion, rrfInsert, RRF_K, BM25_K1, BM25_B, str,
    trimList, FIRST_CHUNK_BOOST, (by decide : isIdentityQuery ['n', 'a', 'm', 'e'] = true)]

/-- Witness for C8 on a one-chunk corpus whose text tokenizes to one token
(so the average document length is 1 > 0) with cosine value 1: the unique
scored candidate of the `"name"` run satisfies the amended bounds and its
stored BM25 value agrees with the JS computation. -/
theorem C8_witness :
    (-1 ≤ ({ cC with
             score := 1 + 3/20 + 3/20 * (1/2), bm25Score := 0,
             combinedScore := 1/61 + 1/61 } : RChunk).score ∧
      ({ cC with
         score := 1 + 3/20 + 3/20 * (1/2), bm25Score := 0,
         combinedScore := 1/61 + 1/61 } : RChunk).score ≤ 49/40) ∧
    (0 ≤ ({ cC with
            score := 1 + 3/20 + 3/20 * (1/2), bm25Score := 0,
            combinedScore := 1/61 + 1/61 } : RChunk).bm25Score ∧
      bm25ScoreJS (dedupFirst (tokenize (str "name")))
        (tokenize ({ cC with
                     score := 1 + 3/20 + 3/20 * (1/2), bm25Score := 0,
                     combinedScore := 1/61 + 1/61 } : RChunk).text)
        (avgDocLenOf ((topKStage ratSqrt (isIdentityQuery (str "name")) [1] [cC]).map
          (fun c => tokenize c.text)))
        (idfMapOf lgq (dedupFirst (tokenize (str "name")))
          ((topKStage ratSqrt (isIdentityQuery (str "name")) [1] [cC]).map
            (fun c => tokenize c.text))) =
        JSNum.val ({ cC with
                     score := 1 + 3/20 + 3/20 * (1/2), bm25Score := 0,
                     combinedScore := 1/61 + 1/61 } : RChunk).bm25Score) ∧
    (0 < ({ cC with
            score := 1 + 3/20 + 3/20 * (1/2), bm25Score := 0,
            combinedScore := 1/61 + 1/61 } : RChunk).combinedScore ∧
      ({ cC with
         score := 1 + 3/20 + 3/20 * (1/2), bm25Score := 0,
         combinedScore := 1/61 + 1/61 } : RChunk).combinedScore ≤ 2/61) :=
  C8_scored_candidate_ranges ratSqrt lgq [cC] (str "name") [1]
    (by decide)
    (by
      intro c hc
      simp only [List.mem_singleton] at hc
      subst hc
      norm_num [cosineSimilarityQ, ratSqrt, isqrt, isqrtGo, dotProduct, normSq, cC])
    (by intro q hq; simp [lgq])
    (by rw [avg_name_cC]; norm_num)
    _
    (by rw [combined_name_cC]; exact List.mem_singleton_self _)

lemma digitChar_isDigit {d : Nat} (h : d < 10) : (digitChar d).isDigit = true := by
  interval_cases d <;> decide

lemma natDigitsGo_spec : ∀ (fuel n : Nat) (acc : List Char), n < fuel →
    ∃ ds, natDigitsGo fuel n acc = ds ++ acc ∧ ds ≠ [] ∧ ∀ c ∈ ds, c.isDigit = true := by
  intro fuel
  induction fuel with
  | zero => intro n acc h; omega
  | succ f ih =>
    intro n acc h
    simp only [natDigitsGo]
    by_cases h10 : n < 10
    · rw [if_pos h10]
      exact ⟨[digitChar n], rfl, by simp, by
        intro c hc
        simp only [List.mem_singleton] at hc
        subst hc
        exact digitChar_isDigit h10⟩
    · rw [if_neg h10]
      have hfuel : n / 10 < f := by omega
      obtain ⟨ds, hds, hne, hdig⟩ := ih (n / 10) (digitChar (n % 10) :: acc) hfuel
      refine ⟨ds ++ [digitChar (n % 10)], ?_, by simp, ?_⟩
      · rw [hds]
        simp
      · intro c hc
        rcases List.mem_append.mp hc with h1 | h2
        · exact hdig c h1
        · simp only [List.mem_singleton] at h2
          subst h2
          exact digitChar_isDigit (by omega)

lemma natDigits_spec (n : Nat) :
    natDigits n ≠ [] ∧ ∀ c ∈ natDigits n, c.isDigit = true := by
  obtain ⟨ds, hds, hne, hdig⟩ := natDigitsGo_spec (n + 1) n [] (by omega)
  unfold natDigits
  rw [hds]
  simpa using ⟨hne, hdig⟩

lemma digitsClose_append (ds : List Char) (hds : ∀ c ∈ ds, c.isDigit = true)
    (rest : List Char) : digitsClose (ds ++ ']' :: rest) = true := by
  induction ds with
  | nil => simp [digitsClose]
  | cons d ds ih =>
    simp only [List.cons_append, digitsClose]
    split
    · rfl
    · rw [hds d (List.mem_cons_self d ds), List.append_eq,
        ih (fun c hc => hds c (List.mem_cons_of_mem d hc))]
      rfl

lemma citHere_citTok (n : Nat) (rest : List Char) : citHere (citTok n ++ rest) = true := by
  obtain ⟨hne, hdig⟩ := natDigits_spec n
  cases hd : natDigits n with
  | nil => exact absurd hd hne
  | cons d ds =>
    have hdd : d.isDigit = true := hdig d (by rw [hd]; exact List.mem_cons_self d ds)
    have hdsd : ∀ c ∈ ds, c.isDigit = true := fun c hc =>
      hdig c (by rw [hd]; exact List.mem_cons_of_mem d hc)
    simp only [citTok, hd, List.cons_append, List.append_assoc, List.nil_append]
    show citHere ('[' :: 'S' :: d :: (ds ++ (']' :: rest))) = true
    simp only [citHere, hdd, Bool.true_and]
    exact digitsClose_append ds hdsd rest

lemma hasCitTok_of_citHere (s : List Char) (h : citHere s = true) : hasCitTok s = true := by
  cases s with
  | nil => simp [citHere] at h
  | cons c rest => simp [hasCitTok, h]

lemma hasCitTok_append_right (xs ys : List Char) (h : hasCitTok ys = true) :
    hasCitTok (xs ++ ys) = true := by
  induction xs with
  | nil => simpa using h
  | cons c rest ih => simp [hasCitTok, ih]

lemma hasCitTok_decomp (pre post : List Char) (n : Nat) :
    hasCitTok (pre ++ citTok n ++ post) = true := by
  rw [List.append_assoc]
  apply hasCitTok_append_right
  exact hasCitTok_of_citHere _ (citHere_citTok n post)

lemma hasCitTok_of_inRange {k : Nat} {s : List Char} (h : InRangeCit k s) :
    hasCitTok s = true := by
  obtain ⟨n, pre, post, _, _, rfl⟩ := h
  exact hasCitTok_decomp pre post n

lemma hasCitTok_ne_nil {s : List Char} (h : hasCitTok s = true) : s ≠ [] := by
  intro hs
  subst hs
  simp [hasCitTok] at h

lemma containsAbstention_ne_nil {s : List Char} (h : containsAbstention s = true) :
    s ≠ [] := by
  intro hs
  subst hs
  exact absurd h (by decide)

lemma labelFrom_length : ∀ (l : List RChunk) (n : Nat), (labelFrom n l).length = l.length := by
  intro l
  induction l with
  | nil => intro n; rfl
  | cons c cs ih => intro n; simp [labelFrom, ih]

lemma labelFrom_good : ∀ (l : List RChunk) (n : Nat) (c : RChunk), c ∈ labelFrom n l →
    ∃ j, n ≤ j ∧ j < n + l.length ∧ c.sourceId = 'S' :: natDigits (j + 1) := by
  intro l
  induction l with
  | nil => intro n c hc; cases hc
  | cons x xs ih =>
    intro n c hc
    rcases List.mem_cons.mp hc with h1 | h2
    · exact ⟨n, le_rfl, by simp, by rw [h1]⟩
    · obtain ⟨j, hj1, hj2, hj3⟩ := ih (n + 1) c h2
      exact ⟨j, by omega, by simp; omega, hj3⟩

lemma retrieveSources_good (sq lg : ℚ → ℚ) (corpus : List RChunk) (text : List Char)
    (qv : List ℚ) : ∀ c ∈ retrieveSources sq lg corpus text qv,
      GoodId (retrieveSources sq lg corpus text qv).length c := by
  intro c hc
  unfold retrieveSources at hc ⊢
  obtain ⟨j, _, hj2, hj3⟩ := labelFrom_good _ 0 c hc
  exact ⟨j, by rw [labelFrom_length]; omega, hj3⟩

lemma findSome?_exists {α β : Type} (f : α → Option β) : ∀ (l : List α) (b : β),
    l.findSome? f = some b → ∃ a ∈ l, f a = some b := by
  intro l
  induction l with
  | nil => intro b h; simp [List.findSome?] at h
  | cons x xs ih =>
    intro b h
    rw [List.findSome?_cons] at h
    cases hf : f x with
    | some v =>
      rw [hf] at h
      exact ⟨x, List.mem_cons_self x xs, by rw [hf]; exact h⟩
    | none =>
      rw [hf] at h
      obtain ⟨a, ha, hfa⟩ := ih b h
      exact ⟨a, List.mem_cons_of_mem x ha, hfa⟩

lemma extractIdentityInfo_cit (sources : List RChunk) (k : Nat)
    (hgood : ∀ c ∈ sources, GoodId k c) {a : List Char}
    (h : extractIdentityInfo sources = some a) : InRangeCit k a := by
  simp only [extractIdentityInfo] at h
  obtain ⟨chunk, hchunk, hf⟩ := findSome?_exists _ _ _ h
  have hmem : chunk ∈ sources := by
    split at hchunk
    · cases sources with
      | nil => cases hchunk
      | cons s ss =>
        simp only [List.mem_singleton] at hchunk
        rw [hchunk]
        exact List.mem_cons_self s ss
    · exact List.mem_of_mem_filter hchunk
  obtain ⟨line, hline, hg⟩ := findSome?_exists _ _ _ hf
  split at hg
  · obtain ⟨j, hj, hsid⟩ := hgood chunk hmem
    rw [Option.some.injEq] at hg
    refine ⟨j + 1, line ++ [' '], [], by omega, by omega, ?_⟩
    rw [← hg, hsid]
    simp [citTok]
  · cases hg

lemma pickDiverse_sub : ∀ (rest picked : List SentEntry) (e : SentEntry),
    e ∈ pickDiverse picked rest → e ∈ picked ∨ e ∈ rest := by
  intro rest
  induction rest with
  | nil =>
    intro picked e h
    exact Or.inl (by simpa [pickDiverse] using h)
  | cons s rs ih =>
    intro picked e h
    simp only [pickDiverse] at h
    split at h
    · exact Or.inl h
    · split at h
      · rcases ih picked e h with h1 | h2
        · exact Or.inl h1
        · exact Or.inr (List.mem_cons_of_mem s h2)
      · rcases ih (picked ++ [s]) e h with h1 | h2
        · rcases List.mem_append.mp h1 with h3 | h4
          · exact Or.inl h3
          · simp only [List.mem_singleton] at h4
            exact Or.inr (by rw [h4]; exact List.mem_cons_self s rs)
        · exact Or.inr (List.mem_cons_of_mem s h2)

lemma joinSep_cons (sep x : List Char) (xs : List (List Char)) :
    ∃ r, joinSep sep (x :: xs) = x ++ r := by
  cases xs with
  | nil => exact ⟨[], by simp [joinSep]⟩
  | cons y ys => exact ⟨sep ++ joinSep sep (y :: ys), by simp [joinSep]⟩

lemma buildExtractiveAnswer_cit (sq lg : ℚ → ℚ) (qT : List Token)
    (sources : List RChunk) (k : Nat) (hgood : ∀ c ∈ sources, GoodId k c)
    {a : List Char} (h : buildExtractiveAnswer sq lg qT sources = some a) :
    InRangeCit k a := by
  simp only [buildExtractiveAnswer] at h
  split at h
  · cases h
  · next hne =>
    rw [Option.some.injEq] at h
    rcases hp : pickDiverse [] (sortDesc (fun e : SentEntry => e.score) _) with _ | ⟨p, ps⟩
    · rw [hp] at hne
      simp at hne
    · rw [hp] at h
      have hpmem := List.mem_cons_self p ps
      rw [← hp] at hpmem
      rcases pickDiverse_sub _ _ _ hpmem with h0 | hsorted
      · cases h0
      · rw [mem_sortDesc] at hsorted
        have hfil := List.mem_of_mem_filter hsorted
        obtain ⟨e, he, hpe⟩ := List.mem_map.mp hfil
        obtain ⟨src, hsrc, he2⟩ := List.mem_flatMap.mp he
        obtain ⟨sent, hsent, hes⟩ := List.mem_map.mp he2
        have hpsid : p.sourceId = src.sourceId := by
          rw [← hpe, ← hes]
        obtain ⟨j, hj, hsid⟩ := hgood src hsrc
        obtain ⟨r, hr⟩ := joinSep_cons [' ']
          (p.sentence ++ (' ' :: '[' :: (p.sourceId ++ [']'])))
          (ps.map (fun p => p.sentence ++ (' ' :: '[' :: (p.sourceId ++ [']']))))
        rw [List.map_cons, hr] at h
        refine ⟨j + 1, p.sentence ++ [' '], r, by omega, by omega, ?_⟩
        rw [← h, hpsid, hsid]
        simp [citTok]

lemma findIdx?_lt {α : Type} (p : α → Bool) : ∀ (l : List α) (i0 i : Nat),
    List.findIdx? p l i0 = some i → i0 ≤ i ∧ i < i0 + l.length := by
  intro l
  induction l with
  | nil => intro i0 i h; simp [List.findIdx?] at h
  | cons x xs ih =>
    intro i0 i h
    rw [List.findIdx?_cons] at h
    split at h
    · rw [Option.some.injEq] at h
      simp only [List.length_cons]
      omega
    · obtain ⟨h1, h2⟩ := ih (i0 + 1) i h
      simp only [List.length_cons]
      omega

lemma ne_nil_isEmpty {α : Type} {l : List α} (h : l ≠ []) : l.isEmpty = false := by
  cases l with
  | nil => exact absurd rfl h
  | cons x xs => rfl

lemma inRange_ne_nil {k : Nat} {s : List Char} (h : InRangeCit k s) : s ≠ [] :=
  hasCitTok_ne_nil (hasCitTok_of_inRange h)

lemma enforceCitations_prop (sq lg : ℚ → ℚ) (qT : List Token) (ls : List RChunk)
    (a3 : List Char) (hgood : ∀ c ∈ ls, GoodId ls.length c) :
    containsAbstention (enforceCitations sq lg qT ls a3) = true ∨
      InRangeCit ls.length (enforceCitations sq lg qT ls a3) ∨
      hasCitTok (enforceCitations sq lg qT ls a3) = true := by
  unfold enforceCitations
  by_cases hc : hasCitTok a3 = true
  · rw [if_neg (by simp [hc])]
    exact Or.inr (Or.inr hc)
  · by_cases ha : containsAbstention a3 = true
    · rw [if_neg (by simp [ha])]
      exact Or.inl ha
    · have hc' : hasCitTok a3 = false := by
        revert hc
        cases hasCitTok a3 <;> simp
      have ha' : containsAbstention a3 = false := by
        revert ha
        cases containsAbstention a3 <;> simp
      rw [if_pos (by rw [hc', ha']; rfl)]
      dsimp only
      split
      · cases hidx : ls.findIdx? (fun s => includesSub s.text (trimList (collapseWS a3))) with
        | some i =>
          dsimp only
          right
          left
          obtain ⟨_, hlt⟩ := findIdx?_lt _ ls 0 i hidx
          exact ⟨i + 1, trimList (collapseWS a3) ++ [' '], [], by omega, by omega, by simp⟩
        | none =>
          dsimp only
          cases hbe : buildExtractiveAnswer sq lg qT ls with
          | some e =>
            simp only [Option.getD_some]
            exact Or.inr (Or.inl (buildExtractiveAnswer_cit sq lg qT ls ls.length hgood hbe))
          | none =>
            simp only [Option.getD_none]
            exact Or.inl (by decide)
      · cases hbe : buildExtractiveAnswer sq lg qT ls with
        | some e =>
          simp only [Option.getD_some]
          exact Or.inr (Or.inl (buildExtractiveAnswer_cit sq lg qT ls ls.length hgood hbe))
        | none =>
          simp only [Option.getD_none]
          exact Or.inl (by decide)

lemma finalizeAnswer_prop (sq lg : ℚ → ℚ) (qT : List Token) (ls : List RChunk)
    (prompt raw : List Char) (hgood : ∀ c ∈ ls, GoodId ls.length c) :
    containsAbstention (finalizeAnswer sq lg qT ls prompt raw) = true ∨
      InRangeCit ls.length (finalizeAnswer sq lg qT ls prompt raw) ∨
      hasCitTok (finalizeAnswer sq lg qT ls prompt raw) = true := by
  unfold finalizeAnswer
  dsimp only
  rcases enforceCitations_prop sq lg qT ls (cleanupAnswer prompt raw) hgood with h | h | h
  · rw [ne_nil_isEmpty (containsAbstention_ne_nil h)]
    simpa using Or.inl h
  · rw [ne_nil_isEmpty (inRange_ne_nil h)]
    simpa using Or.inr (Or.inl h)
  · rw [ne_nil_isEmpty (hasCitTok_ne_nil h)]
    simpa using Or.inr (Or.inr h)

/-- C1: citation policy of the final answer, amended.  Whenever a query run
ends in a `query_result` event with answer `a` and sources `ls`, one of the
following holds: the corpus was empty and `a` is the fixed no-documents
message with `ls = []`; the generator threw and `a` is the fixed
generation-failure message, which carries no citation; `a` contains the
abstention phrase (case-insensitively); `a` contains a citation token `[S#]`
with `1 <= # <= ls.length` (every answer the pipeline builds itself is of
this form); or `a` merely contains some `[S#]` token (a generator answer that
already carried a token is kept without validating its index against
`ls.length`).  The original claim - every non-abstention answer carries an
in-range citation - fails on the generation-failure fallback and on
generator-written out-of-range tokens. -/
theorem C1_citation_policy (sq lg : ℚ → ℚ) (embed : List Char → Option (List ℚ))
    (gen : List Char → Option (List Char)) (corpus : List RChunk) (text : List Char)
    (a : List Char) (ls : List RChunk)
    (h : (handleQuery sq lg embed gen corpus text).1 = FinalEvent.queryResult a ls) :
    (a = noDocsMsg ∧ ls = []) ∨ a = genFailMsg ∨ containsAbstention a = true ∨
      InRangeCit ls.length a ∨ hasCitTok a = true := by
  unfold handleQuery at h
  cases hemb : embed (expandQuery text) with
  | none =>
    rw [hemb] at h
    exact absurd h (by simp)
  | some qv =>
    rw [hemb] at h
    dsimp only at h
    by_cases hemp : corpus.isEmpty
    · rw [if_pos hemp] at h
      dsimp only at h
      rw [FinalEvent.queryResult.injEq] at h
      exact Or.inl ⟨h.1.symm, h.2.symm⟩
    · rw [if_neg hemp] at h
      have hgood := retrieveSources_good sq lg corpus text qv
      by_cases hgate : topScoreOf (retrieveSources sq lg corpus text qv) < thresholdOf text
      · rw [if_pos hgate] at h
        cases hext : (if isIdentityQuery text then
            extractIdentityInfo (retrieveSources sq lg corpus text qv) else none) with
        | some ia =>
          rw [hext] at h
          dsimp only at h
          rw [FinalEvent.queryResult.injEq] at h
          obtain ⟨ha, hls⟩ := h
          subst hls
          have hee : extractIdentityInfo (retrieveSources sq lg corpus text qv) = some ia := by
            by_cases hid : isIdentityQuery text
            · rwa [if_pos hid] at hext
            · rw [if_neg hid] at hext; cases hext
          refine Or.inr (Or.inr (Or.inr (Or.inl ?_)))
          rw [← ha]
          exact extractIdentityInfo_cit _ _ hgood hee
        | none =>
          rw [hext] at h
          dsimp only at h
          cases hbe : buildExtractiveAnswer sq lg (dedupFirst (tokenize text))
              (retrieveSources sq lg corpus text qv) with
          | some ex =>
            rw [hbe] at h
            dsimp only at h
            rw [FinalEvent.queryResult.injEq] at h
            obtain ⟨ha, hls⟩ := h
            subst hls
            refine Or.inr (Or.inr (Or.inr (Or.inl ?_)))
            rw [← ha]
            exact buildExtractiveAnswer_cit sq lg _ _ _ hgood hbe
          | none =>
            rw [hbe] at h
            dsimp only at h
            rw [FinalEvent.queryResult.injEq] at h
            obtain ⟨ha, hls⟩ := h
            refine Or.inr (Or.inr (Or.inl ?_))
            rw [← ha]
            decide
      · rw [if_neg hgate] at h
        cases hext : (if isIdentityQuery text then
            extractIdentityInfo (retrieveSources sq lg corpus text qv) else none) with
        | some ia =>
          rw [hext] at h
          dsimp only at h
          rw [FinalEvent.queryResult.injEq] at h
          obtain ⟨ha, hls⟩ := h
          subst hls
          have hee : extractIdentityInfo (retrieveSources sq lg corpus text qv) = some ia := by
            by_cases hid : isIdentityQuery text
            · rwa [if_pos hid] at hext
            · rw [if_neg hid] at hext; cases hext
          refine Or.inr (Or.inr (Or.inr (Or.inl ?_)))
          rw [← ha]
          exact extractIdentityInfo_cit _ _ hgood hee
        | none =>
          rw [hext] at h
          dsimp only at h
          cases hgen : gen (promptOf (retrieveSources sq lg corpus text qv) text) with
          | none =>
            rw [hgen] at h
            dsimp only at h
            rw [FinalEvent.queryResult.injEq] at h
            exact Or.inr (Or.inl h.1.symm)
          | some raw =>
            rw [hgen] at h
            dsimp only at h
            rw [FinalEvent.queryResult.injEq] at h
            obtain ⟨ha, hls⟩ := h
            subst hls
            rcases finalizeAnswer_prop sq lg (dedupFirst (tokenize text))
                (retrieveSources sq lg corpus text qv)
                (promptOf (retrieveSources sq lg corpus text qv) text) raw hgood with
              hp | hp | hp
            · exact Or.inr (Or.inr (Or.inl (ha ▸ hp)))
            · exact Or.inr (Or.inr (Or.inr (Or.inl (ha ▸ hp))))
            · exact Or.inr (Or.inr (Or.inr (Or.inr (ha ▸ hp))))

lemma sources_name : retrieveSources ratSqrt lgq [cB] (str "name") [1] =
    [{ cB with score := 1 + 3/20 + 3/20 * (1/2), bm25Score := 0,
               combinedScore := 1/61 + 1/61, sourceId := str "S1" }] := by
  rw [retrieveSources, combined_name]
  norm_num [mmrRerank, labelFrom, str,
    (by decide : natDigits 1 = ['1'])]

lemma topScore_name_ge :
    ¬ topScoreOf (retrieveSources ratSqrt lgq [cB] (str "name") [1]) <
        thresholdOf (str "name") := by
  rw [sources_name]
  norm_num [topScoreOf, thresholdOf,
    (by decide : isIdentityQuery (str "name") = true)]

lemma extract_name_none :
    extractIdentityInfo (retrieveSources ratSqrt lgq [cB] (str "name") [1]) = none := by
  rw [sources_name]
  decide

/-- Counterexample to C1 as frozen: the identity query `"name"` against a
one-chunk corpus passes the confidence gate (top combined score 2/61 is at
least the identity threshold 1/100), identity extraction finds no name line,
and the generator throws; the emitted answer is the fixed generation-failure
message, which neither contains the abstention phrase nor any `[S#]` token,
while one labelled source is returned alongside it. -/
theorem C1_counterexample :
    (handleQuery ratSqrt lgq embed1 genNone [cB] (str "name")).1 =
        FinalEvent.queryResult genFailMsg
          (retrieveSources ratSqrt lgq [cB] (str "name") [1]) ∧
      containsAbstention genFailMsg = false ∧ hasCitTok genFailMsg = false ∧
      (retrieveSources ratSqrt lgq [cB] (str "name") [1]).length = 1 := by
  refine ⟨?_, by decide, by decide, by rw [sources_name]; rfl⟩
  unfold handleQuery
  rw [show embed1 (expandQuery (str "name")) = some [1] from rfl,
      show ([cB] : List RChunk).isEmpty = false from rfl]
  simp only [Bool.false_eq_true, if_false]
  rw [if_neg topScore_name_ge]
  rw [if_pos (by decide : isIdentityQuery (str "name") = true)]
  rw [extract_name_none]
  rfl

/-- Witness for C1: an empty-corpus query run; the handler emits the
no-documents result with empty sources and the theorem applies, its first
disjunct holding. -/
theorem C1_witness :
    (noDocsMsg = noDocsMsg ∧ ([] : List RChunk) = []) ∨ noDocsMsg = genFailMsg ∨
      containsAbstention noDocsMsg = true ∨
      InRangeCit (List.length ([] : List RChunk)) noDocsMsg ∨
      hasCitTok noDocsMsg = true :=
  C1_citation_policy ratSqrt lgq embed1 genNone [] (str "hello") noDocsMsg [] rfl
